import Mathlib

/-!
Verification development for the toy-sim core: the high-precision spatial
representation (`src/precision.rs`), the Keplerian orbit solver
(`src/orrery/solver.rs`), the per-tick dynamics integrator (`src/physics.rs`)
and the docked-assembly aggregator (`src/physics/docking.rs`).

Modelling conventions:
* `f64`/`f32` values are embedded as exact rationals (`ℚ`) where the code only
  performs field operations, and as reals (`ℝ`) where the code calls
  transcendental functions (`sqrt`, `sin`, `cos`, `atan2`).  Floating-point
  rounding and the `f64`→`f32` narrowing are modelled as exact; every claim
  settled against this idealisation says so.
* `i64` values are embedded as `ℤ`.  The saturating operations used by
  `precision.rs` (`saturating_sub`, `saturating_add`) are modelled exactly,
  clamping to `[-2^63, 2^63 - 1]`; plain `i64` addition (`+=`) is modelled as
  exact integer addition (two's-complement wraparound is not modelled).
* `glam` quaternion/vector/matrix operations are embedded by their scalar
  implementations (Hamilton product, `mul_vec3` rotation formula,
  column-major 3x3 matrices, `inverse` = conjugate for quaternions).
* Division by zero follows Lean's `x / 0 = 0` convention where the Rust code
  would produce `inf`/`NaN`; no settled claim depends on such an input.
-/

set_option linter.unusedSectionVars false

namespace ToySim

/-- A 3-vector, the embedding of glam's `DVec3` / `I64Vec3` / `Vec3`
(component type chosen per use site). -/
structure V3 (α : Type) where
  x : α
  y : α
  z : α
deriving DecidableEq, Repr

namespace V3

variable {α : Type} [CommRing α]

instance : Add (V3 α) := ⟨fun a b => ⟨a.x + b.x, a.y + b.y, a.z + b.z⟩⟩

instance : Sub (V3 α) := ⟨fun a b => ⟨a.x - b.x, a.y - b.y, a.z - b.z⟩⟩

instance : Neg (V3 α) := ⟨fun a => ⟨-a.x, -a.y, -a.z⟩⟩

instance : Zero (V3 α) := ⟨⟨0, 0, 0⟩⟩

instance : SMul α (V3 α) := ⟨fun s a => ⟨s * a.x, s * a.y, s * a.z⟩⟩

/-- Dot product (`glam::DVec3::dot`). -/
def dot (a b : V3 α) : α := a.x * b.x + a.y * b.y + a.z * b.z

/-- Cross product (`glam::DVec3::cross`). -/
def cross (a b : V3 α) : V3 α :=
  ⟨a.y * b.z - a.z * b.y, a.z * b.x - a.x * b.z, a.x * b.y - a.y * b.x⟩

/-- Squared Euclidean length (`glam::DVec3::length_squared`). -/
def normSq (a : V3 α) : α := dot a a

/-- Componentwise map, used to move between component types. -/
def map {β : Type} (f : α → β) (a : V3 α) : V3 β := ⟨f a.x, f a.y, f a.z⟩

/-- Sum of a list of vectors. -/
def vsum (l : List (V3 α)) : V3 α := l.foldr (· + ·) 0

end V3

/-- Cast a rational vector to a real vector (the `f64` values live in both
worlds of the model). -/
def castV3 (v : V3 ℚ) : V3 ℝ := ⟨(v.x : ℝ), (v.y : ℝ), (v.z : ℝ)⟩

/-- A quaternion `w + xi + yj + zk`, the embedding of glam's `DQuat`. -/
structure Quat (α : Type) where
  w : α
  x : α
  y : α
  z : α
deriving DecidableEq, Repr

namespace Quat

variable {α : Type} [CommRing α]

/-- Hamilton product, the embedding of glam's `DQuat::mul_quat`. -/
def mul (a b : Quat α) : Quat α :=
  ⟨a.w * b.w - a.x * b.x - a.y * b.y - a.z * b.z,
   a.w * b.x + a.x * b.w + a.y * b.z - a.z * b.y,
   a.w * b.y - a.x * b.z + a.y * b.w + a.z * b.x,
   a.w * b.z + a.x * b.y - a.y * b.x + a.z * b.w⟩

/-- Conjugate.  glam's `DQuat::inverse` is exactly the conjugate (it asserts
normalisation in debug builds and returns the conjugate). -/
def conj (a : Quat α) : Quat α := ⟨a.w, -a.x, -a.y, -a.z⟩

/-- Squared norm (`glam::DQuat::length_squared`). -/
def normSq (a : Quat α) : α := a.w * a.w + a.x * a.x + a.y * a.y + a.z * a.z

/-- The identity quaternion (`DQuat::IDENTITY`). -/
def one : Quat α := ⟨1, 0, 0, 0⟩

/-- Rotation of a vector by a quaternion: the embedding of glam's
`DQuat::mul_vec3`, which computes
`v * (w*w - b.dot(b)) + b * (v.dot(b) * 2) + b.cross(v) * (w * 2)`
for `b` the imaginary part.  For any `q` this equals the imaginary part of
`q * v * conj q`. -/
def rotate (q : Quat α) (v : V3 α) : V3 α :=
  let b : V3 α := ⟨q.x, q.y, q.z⟩
  ((q.w * q.w - V3.dot b b) • v) + ((V3.dot v b * 2) • b) + ((q.w * 2) • V3.cross b v)

end Quat

/-- A column-major 3x3 matrix, the embedding of glam's `DMat3`
(`from_cols(x_axis, y_axis, z_axis)`). -/
structure M3 (α : Type) where
  x_axis : V3 α
  y_axis : V3 α
  z_axis : V3 α
deriving DecidableEq, Repr

namespace M3

variable {α : Type} [CommRing α]

instance : Add (M3 α) := ⟨fun a b => ⟨a.x_axis + b.x_axis, a.y_axis + b.y_axis, a.z_axis + b.z_axis⟩⟩

instance : Zero (M3 α) := ⟨⟨0, 0, 0⟩⟩

instance : SMul α (M3 α) := ⟨fun s m => ⟨s • m.x_axis, s • m.y_axis, s • m.z_axis⟩⟩

/-- The identity matrix (`DMat3::IDENTITY`). -/
def identity : M3 α := ⟨⟨1, 0, 0⟩, ⟨0, 1, 0⟩, ⟨0, 0, 1⟩⟩

/-- Matrix-vector product for a column-major matrix (`DMat3::mul_vec3`). -/
def mulVec (m : M3 α) (v : V3 α) : V3 α := v.x • m.x_axis + v.y • m.y_axis + v.z • m.z_axis

/-- Matrix product (`DMat3::mul_mat3`): columns are images of the columns. -/
def mulM (a b : M3 α) : M3 α := ⟨a.mulVec b.x_axis, a.mulVec b.y_axis, a.mulVec b.z_axis⟩

/-- Transpose. -/
def transpose (m : M3 α) : M3 α :=
  ⟨⟨m.x_axis.x, m.y_axis.x, m.z_axis.x⟩,
   ⟨m.x_axis.y, m.y_axis.y, m.z_axis.y⟩,
   ⟨m.x_axis.z, m.y_axis.z, m.z_axis.z⟩⟩

/-- Embedding of glam's `DMat3::from_quat` (rotation matrix of a unit
quaternion). -/
def from_quat (q : Quat α) : M3 α :=
  let x2 := q.x + q.x
  let y2 := q.y + q.y
  let z2 := q.z + q.z
  let xx := q.x * x2
  let xy := q.x * y2
  let xz := q.x * z2
  let yy := q.y * y2
  let yz := q.y * z2
  let zz := q.z * z2
  let wx := q.w * x2
  let wy := q.w * y2
  let wz := q.w * z2
  ⟨⟨1 - (yy + zz), xy + wz, xz - wy⟩,
   ⟨xy - wz, 1 - (xx + zz), yz + wx⟩,
   ⟨xz + wy, yz - wx, 1 - (xx + yy)⟩⟩

end M3

/-- Embedding of glam's `DMat3::inverse`: transpose of the cross-product
cofactor columns scaled by the reciprocal determinant.  A zero determinant
yields the zero matrix under Lean's division convention (glam would produce
non-finite entries); no settled claim inspects that case. -/
def M3.inverse (m : M3 ℚ) : M3 ℚ :=
  let tmp0 := V3.cross m.y_axis m.z_axis
  let tmp1 := V3.cross m.z_axis m.x_axis
  let tmp2 := V3.cross m.x_axis m.y_axis
  let det := V3.dot m.z_axis tmp2
  let inv_det := det⁻¹
  M3.transpose ⟨inv_det • tmp0, inv_det • tmp1, inv_det • tmp2⟩

/-! ## Spatial representation (`src/precision.rs`) -/

/-- Smallest `i64` value. -/
def i64min : ℤ := -(2 ^ 63)

/-- Largest `i64` value. -/
def i64max : ℤ := 2 ^ 63 - 1

/-- Clamp an integer into the `i64` range, as Rust saturating arithmetic does. -/
def satI64 (n : ℤ) : ℤ := max i64min (min i64max n)

/-- Lanewise `I64Vec3::saturating_sub`. -/
def satSub (a b : V3 ℤ) : V3 ℤ := ⟨satI64 (a.x - b.x), satI64 (a.y - b.y), satI64 (a.z - b.z)⟩

/-- Lanewise `I64Vec3::saturating_add`. -/
def satAdd (a b : V3 ℤ) : V3 ℤ := ⟨satI64 (a.x + b.x), satI64 (a.y + b.y), satI64 (a.z + b.z)⟩

/-- Rust's `f64::round`: round half away from zero. -/
def rustRound (q : ℚ) : ℤ := if 0 ≤ q then ⌊q + 1 / 2⌋ else ⌈q - 1 / 2⌉

/-- Embedding of `ToMetersExt::to_meters_64` on `I64Vec3`:
`self.as_dvec3() / 1000.0` (the lossy `i64`→`f64` cast is modelled as exact). -/
def to_meters_64 (v : V3 ℤ) : V3 ℚ := ⟨(v.x : ℚ) / 1000, (v.y : ℚ) / 1000, (v.z : ℚ) / 1000⟩

/-- Embedding of `ToMillimetersExt::to_millimeters` on `DVec3`:
`(self.{x,y,z} * 1000.0).round() as i64` per lane. -/
def to_millimeters (v : V3 ℚ) : V3 ℤ :=
  ⟨rustRound (v.x * 1000), rustRound (v.y * 1000), rustRound (v.z * 1000)⟩

/-- Embedding of `PreciseTransform`: a translation in integer millimeters plus a
double-precision rotation quaternion. -/
structure PreciseTransform where
  translation_mm : V3 ℤ
  rotation : Quat ℚ
deriving DecidableEq, Repr

/-- Embedding of the render-space `Transform` (translation in meters); the
`f32` components are modelled as exact rationals. -/
structure Transform where
  translation : V3 ℚ
  rotation : Quat ℚ
deriving DecidableEq, Repr

/-- Embedding of `FloatingOrigin::project_loc`: subtract the origin translation
with saturation, convert to meters, rotate by the inverse (conjugate) of the
origin rotation and narrow (modelled exactly). -/
def project_loc (origin : PreciseTransform) (loc : V3 ℤ) : V3 ℚ :=
  let rel_translation_mm := satSub loc origin.translation_mm
  let rel_translation_meters := to_meters_64 rel_translation_mm
  Quat.rotate origin.rotation.conj rel_translation_meters

/-- Embedding of `FloatingOrigin::project`. -/
def project (origin : PreciseTransform) (ptf : PreciseTransform) : Transform :=
  { translation := project_loc origin ptf.translation_mm
    rotation := Quat.mul origin.rotation.conj ptf.rotation }

/-- Embedding of `FloatingOrigin::deproject`: promote a render-space transform
back to full precision by composing with the origin. -/
def deproject (origin : PreciseTransform) (tf : Transform) : PreciseTransform :=
  { translation_mm :=
      satAdd origin.translation_mm (to_millimeters (Quat.rotate origin.rotation tf.translation))
    rotation := Quat.mul origin.rotation tf.rotation }

/-! ## Dynamics integrator, linear part (`src/physics.rs`, `apply_forces`)

The per-object loop body of `apply_forces` splits into a linear half
(lines 59-62: position, linear velocity, previous acceleration, force
accumulator — exactly the state below plus the constant mass) and an angular
half (lines 65-71: rotation, angular velocity, torque accumulator).  The two
halves read and write disjoint state, so the linear half is embedded as a
self-contained step; the angular half involves the quaternion exponential map
(`DQuat::from_scaled_axis`) and is not needed by any claim. -/

/-- The linear per-object state read and written by the velocity-Verlet half of
`apply_forces`. -/
structure LinState where
  translation_mm : V3 ℤ
  vel : V3 ℚ
  acc_prev : V3 ℚ
deriving DecidableEq, Repr

/-- One tick of the linear half of `apply_forces` for one object:
`position += v*dt + a_prev*dt²/2`, `a_new = F/mass`, `v += (a_prev+a_new)/2*dt`,
`a_prev = a_new`.  The accumulated force is cleared afterwards; a caller that
re-applies a constant force each tick passes the same `force` again. -/
def applyForcesLin (mass : ℚ) (dt : ℚ) (force : V3 ℚ) (s : LinState) : LinState :=
  let half_dt2 := dt ^ 2 * (1 / 2)
  let translation' := s.translation_mm + to_millimeters (dt • s.vel + half_dt2 • s.acc_prev)
  let acc_new := (1 / mass) • force
  let vel' := s.vel + (1 / 2 * dt) • (s.acc_prev + acc_new)
  ⟨translation', vel', acc_new⟩

/-- Iterated integration: `n` ticks, with the accumulated force set to the same
constant `force` before every tick (the claim's scenario). -/
def applyForcesLinIter (mass : ℚ) (dt : ℚ) (force : V3 ℚ) (n : ℕ) (s : LinState) : LinState :=
  (applyForcesLin mass dt force)^[n] s

/-! ## Docking aggregator (`src/physics/docking.rs`)

The ECS state is modelled as two lists: dock children (entities with
`MassProps`, `DockChild`, force/torque accumulators; a mid-tree node that is
both `DockParent` and `DockChild` appears here and *not* in the parent list,
because both parent queries filter `Without<DockChild>`) and parents (entities
with `DockParent` and without `DockChild`).  Entity ids are `ℕ`. -/

/-- A dock child as seen by both docking passes: `MassProps` (mass, inertia),
the `DockChild` relation (parent entity, fixed relative transform) and the
force/torque accumulators. -/
structure DockChildState where
  ent : ℕ
  mass : ℚ
  inertia : M3 ℚ
  parent : ℕ
  rel_tf : PreciseTransform
  force : V3 ℚ
  torque : V3 ℚ
deriving DecidableEq, Repr

/-- A dock parent (an entity with `DockParent` and no `DockChild`): its
`MassProps`, `PreciseTransform` and accumulators. -/
structure DockParentState where
  ent : ℕ
  mass : ℚ
  inertia : M3 ℚ
  inertia_inv : M3 ℚ
  ptf : PreciseTransform
  force : V3 ℚ
  torque : V3 ℚ
deriving DecidableEq, Repr

/-- Embedding of `outer_rr`: the outer product `r rᵀ` as explicit columns. -/
def outer_rr (r : V3 ℚ) : M3 ℚ :=
  ⟨⟨r.x * r.x, r.x * r.y, r.x * r.z⟩,
   ⟨r.y * r.x, r.y * r.y, r.y * r.z⟩,
   ⟨r.z * r.x, r.z * r.y, r.z * r.z⟩⟩

/-- The children currently declaring `p` as their dock parent, in query order
(the `groups` map of `aggregate_dock_cog`). -/
def dockGroup (cs : List DockChildState) (p : ℕ) : List DockChildState :=
  cs.filter (fun c => c.parent == p)

/-- Total mass of a child group (`m_sum`). -/
def groupMass (g : List DockChildState) : ℚ := (g.map (·.mass)).sum

/-- Mass-weighted sum of child offsets in meters, parent-local
(`m_rsum_local_m`). -/
def groupMR (g : List DockChildState) : V3 ℚ :=
  V3.vsum (g.map (fun c => c.mass • to_meters_64 c.rel_tf.translation_mm))

/-- Center of gravity of a group in meters, parent-local (`cog_local_m`). -/
def groupCog (g : List DockChildState) : V3 ℚ := (1 / groupMass g) • groupMR g

/-- Inertia contribution of one child about the shifted center:
`R I_child Rᵀ + m (‖r‖² E − r rᵀ)` with `r` the post-shift offset in meters. -/
def childInertia (cog_local_mm : V3 ℤ) (c : DockChildState) : M3 ℚ :=
  let r_m := to_meters_64 (c.rel_tf.translation_mm - cog_local_mm)
  let rot := M3.from_quat c.rel_tf.rotation
  let i_child_local := (rot.mulM c.inertia).mulM rot.transpose
  i_child_local + c.mass • (V3.normSq r_m • M3.identity + (-1 : ℚ) • outer_rr r_m)

/-- The `aggregate_dock_cog` update of one parent: skipped when it has no
children or zero total child mass; otherwise the parent translation moves by
the world-rotated center of gravity and its mass properties become the
children's aggregate. -/
def cogUpdateParent (cs : List DockChildState) (p : DockParentState) : DockParentState :=
  let g := dockGroup cs p.ent
  if g.isEmpty then p
  else
    let m_sum := groupMass g
    if m_sum = 0 then p
    else
      let cog_local_m := groupCog g
      let cog_local_mm := to_millimeters cog_local_m
      let delta_world_mm := to_millimeters (Quat.rotate p.ptf.rotation cog_local_m)
      let inertia_local := (g.map (childInertia cog_local_mm)).foldr (· + ·) 0
      { p with
        ptf := { p.ptf with translation_mm := p.ptf.translation_mm + delta_world_mm }
        mass := m_sum
        inertia := inertia_local
        inertia_inv := inertia_local.inverse }

/-- The `aggregate_dock_cog` update of one child: its stored offset is shifted
by `−cog_local_mm` exactly when its parent entity is processed (present in the
parent query and with nonzero group mass). -/
def cogUpdateChild (ps : List DockParentState) (cs : List DockChildState)
    (c : DockChildState) : DockChildState :=
  if ps.any (fun p => p.ent == c.parent) then
    let g := dockGroup cs c.parent
    if groupMass g = 0 then c
    else
      { c with
        rel_tf := { c.rel_tf with
          translation_mm := c.rel_tf.translation_mm - to_millimeters (groupCog g) } }
  else c

/-- Embedding of the `aggregate_dock_cog` system.  The source iterates parents
sequentially, but each iteration reads and writes only that parent and its own
child group, and child groups of distinct parent entities are disjoint, so for
a parent list with distinct entity ids the sequential sweep equals this
per-entity map. -/
def aggregate_dock_cog (cs : List DockChildState) (ps : List DockParentState) :
    List DockChildState × List DockParentState :=
  (cs.map (cogUpdateChild ps cs), ps.map (cogUpdateParent cs))

/-- One child's step of `aggregate_dock_forces`: look up the parent
(`parents.get_mut(dock.parent).unwrap()` — `none` models the panic when the
lookup fails, which happens when the recorded parent either does not exist or
is itself a `DockChild` and hence filtered out of the parent query), fold the
child's force and lever-arm torque into it. -/
def applyChildForce (c : DockChildState) (ps : List DockParentState) :
    Option (List DockParentState) :=
  if ps.any (fun p => p.ent == c.parent) then
    some (ps.map (fun p =>
      if p.ent == c.parent then
        let lever_m := Quat.rotate p.ptf.rotation (to_meters_64 c.rel_tf.translation_mm)
        { p with
          force := p.force + c.force
          torque := p.torque + c.torque + V3.cross lever_m c.force }
      else p))
  else none

/-- Embedding of the `aggregate_dock_forces` system: children are processed in
query order, each folding its accumulators into its parent and then clearing
its own; `none` models the panic of the unchecked parent lookup. -/
def aggregate_dock_forces (cs : List DockChildState) (ps : List DockParentState) :
    Option (List DockChildState × List DockParentState) :=
  match cs with
  | [] => some ([], ps)
  | c :: rest =>
    match applyChildForce c ps with
    | none => none
    | some ps' =>
      match aggregate_dock_forces rest ps' with
      | none => none
      | some (cs', ps'') => some ({ c with force := 0, torque := 0 } :: cs', ps'')

/-- Cast an integer millimeter vector into the rationals. -/
def intCastV3 (v : V3 ℤ) : V3 ℚ := ⟨(v.x : ℚ), (v.y : ℚ), (v.z : ℚ)⟩

/-- The world pose (translation in millimeters, rational) of a dock child:
`parent_translation + parent_rotation · child_local_offset`, the quantity
claim C6 asserts the aggregate pass preserves. -/
def dockChildWorld (p : DockParentState) (c : DockChildState) : V3 ℚ :=
  intCastV3 p.ptf.translation_mm +
    Quat.rotate p.ptf.rotation (intCastV3 c.rel_tf.translation_mm)

/-! ## Orbit solver (`src/orrery/solver.rs`, `src/orrery/orrery_cfg.rs`)

Body parameters are `f64`, embedded as `ℝ` because the solver computes with
`sqrt`, `sin`, `cos` and `atan2`; those definitions are necessarily
noncomputable, and concrete instances are evaluated with `simp`.  Epochs are
embedded as real TAI seconds and `Epoch::from_mjd_utc` as multiplication by
86400 (hifitime's UTC leap-second table is elided; no settled claim depends on
the epoch scale).  The `BTreeMap` keyed by unique body names is embedded as the
insertion-ordered list of bodies with lookup by first matching name, which
agrees with the map on every state `init` can produce since `init` rejects
duplicate names. -/

/-- Embedding of `Orbit` (configuration orbital elements). -/
structure Orbit where
  semi_major : ℝ
  period : ℝ
  eccentricity : ℝ
  inclination : ℝ
  ascending_node : ℝ
  arg_of_pericenter : ℝ
  mean_anomaly : ℝ
  epoch : ℝ

/-- Embedding of `Rotation` (configuration rotation elements). -/
structure RotationCfg where
  rotation_period : ℝ
  obliquity : ℝ
  eq_ascend_node : ℝ
  rotation_epoch : ℝ

/-- Embedding of `BodyClass`. -/
inductive BodyClass where
  | star (lumens : ℝ)
  | planet

/-- Embedding of `Body` (one configured celestial body). -/
structure Body where
  name : String
  class_params : BodyClass
  parent : Option String
  orbit : Orbit
  rotation : RotationCfg
  mass : ℝ
  radius : ℝ

/-- Embedding of `OrreryCfg`. -/
structure OrreryCfg where
  name : String
  bodies : List Body

/-- Embedding of `Orrery`: the solver state after `init`. -/
structure Orrery where
  name : String
  bodies : List Body

/-- Lookup of a body by name: the first body in insertion order carrying the
name (equal to the `BTreeMap` lookup whenever names are unique). -/
def findBody : List Body → String → Option Body
  | [], _ => none
  | b :: rest, n => if b.name = n then some b else findBody rest n

/-- Index of the first body carrying a name. -/
def findBodyIdx : List Body → String → Option ℕ
  | [], _ => none
  | b :: rest, n => if b.name = n then some 0 else (findBodyIdx rest n).map (· + 1)

/-- The gravitational constant used by `Orrery::init` for Kepler's third law
(`const G: f64 = 6.674e-11`). -/
noncomputable def G : ℝ := 6.674e-11

/-- The period fill-in of `Orrery::init`: when the configured period is zero
and the semi-major axis is not, store `T = 2π sqrt(a³/(G (M_parent + M_body)))`
with the parent looked up in the bodies inserted so far. -/
noncomputable def fillPeriod (bodies : List Body) (b : Body) : Body :=
  if b.orbit.period = 0 ∧ b.orbit.semi_major ≠ 0 then
    let a_m := b.orbit.semi_major
    let parent_mass : ℝ :=
      match b.parent with
      | some parent_name =>
        match findBody bodies parent_name with
        | some parent => parent.mass
        | none => 0
      | none => 0
    let mu := G * (parent_mass + b.mass)
    { b with orbit := { b.orbit with period := 2 * Real.pi * Real.sqrt (a_m ^ 3 / mu) } }
  else b

/-- The loop of `Orrery::init` over configured bodies: reject a body naming an
absent parent, fill in a missing period, reject a duplicate name, insert. -/
noncomputable def initAux : List Body → List Body → Except String (List Body)
  | acc, [] => Except.ok acc
  | acc, b :: rest =>
    if (match b.parent with
        | some parent => (findBody acc parent).isNone
        | none => false) then
      Except.error ("unidentified parent of " ++ b.name)
    else
      let b' := fillPeriod acc b
      if (findBody acc b.name).isSome then
        Except.error ("duplicate name in star system: " ++ b.name)
      else initAux (acc ++ [b']) rest

/-- Embedding of `Orrery::init`. -/
noncomputable def init (cfg : OrreryCfg) : Except String Orrery :=
  (initAux [] cfg.bodies).map (fun bs => { name := cfg.name, bodies := bs })

/-- Embedding of `Orrery::get_body`. -/
def get_body (o : Orrery) (name : String) : Option Body := findBody o.bodies name

/-- Embedding of `Epoch::from_mjd_utc` followed by `.to_seconds()` differences:
an MJD day count scaled to seconds. -/
noncomputable def epochFromMjd (d : ℝ) : ℝ := d * 86400

/-- One Newton step for Kepler's equation `E − e sin E = M`:
`E − (E − e sin E − M)/(1 − e cos E)`. -/
noncomputable def keplerStep (e m E : ℝ) : ℝ :=
  E - (E - e * Real.sin E - m) / (1 - e * Real.cos E)

/-- The solver's eccentric-anomaly computation: 50 Newton iterations starting
from the mean anomaly, with no convergence check. -/
noncomputable def keplerE (e m : ℝ) : ℝ := (keplerStep e m)^[50] m

/-- Four-quadrant arctangent (`f64::atan2(y, x)`), embedded as the complex
argument of `x + i y`. -/
noncomputable def atan2 (y x : ℝ) : ℝ := Complex.arg ⟨x, y⟩

/-- Embedding of `DQuat::from_rotation_z`. -/
noncomputable def from_rotation_z (θ : ℝ) : Quat ℝ :=
  ⟨Real.cos (θ / 2), 0, 0, Real.sin (θ / 2)⟩

/-- Embedding of `DQuat::from_rotation_x`. -/
noncomputable def from_rotation_x (θ : ℝ) : Quat ℝ :=
  ⟨Real.cos (θ / 2), Real.sin (θ / 2), 0, 0⟩

/-- Rust's `f64::round` on a real value: round half away from zero. -/
noncomputable def rustRoundR (x : ℝ) : ℤ := if 0 ≤ x then ⌊x + 1 / 2⌋ else ⌈x - 1 / 2⌉

/-- Embedding of `ToMillimetersExt::to_millimeters` on a real vector. -/
noncomputable def to_millimetersR (v : V3 ℝ) : V3 ℤ :=
  ⟨rustRoundR (v.x * 1000), rustRoundR (v.y * 1000), rustRoundR (v.z * 1000)⟩

/-- The orbital-plane-to-inertial rotation used by the solver:
`from_rotation_z(Ω) * from_rotation_x(i) * from_rotation_z(ω)`. -/
noncomputable def inertialRot (o : Orbit) : Quat ℝ :=
  (Quat.mul (from_rotation_z o.ascending_node) (from_rotation_x o.inclination)).mul
    (from_rotation_z o.arg_of_pericenter)

/-- The non-recursive tail of `Orrery::solve_position` for a body with nonzero
semi-major axis: mean anomaly, Newton solve, true anomaly, orbital-plane
position, inertial rotation, millimeter conversion. -/
noncomputable def solveOrbitOffset (o : Orbit) (epoch : ℝ) : V3 ℤ :=
  let dt_s := epoch - epochFromMjd o.epoch
  let n := 2 * Real.pi / o.period
  let m := o.mean_anomaly + n * dt_s
  let e := o.eccentricity
  let bigE := keplerE e m
  let cos_E := Real.cos bigE
  let sin_E := Real.sin bigE
  let v := atan2 (Real.sqrt (1 - e * e) * sin_E) (cos_E - e)
  let r_m := o.semi_major * (1 - e * cos_E)
  let pos_orb : V3 ℝ := ⟨r_m * Real.cos v, r_m * Real.sin v, 0⟩
  let pos_inertial := Quat.rotate (inertialRot o) pos_orb
  to_millimetersR pos_inertial

/-- Embedding of `Orrery::solve_position`, with explicit recursion fuel
standing for the call stack: the result is `none` when the fuel runs out
(modelling non-termination of the parent recursion), `some none` when a body
name is not found (the `?` early return of the source), and `some (some p)` on
success. -/
noncomputable def solvePositionAux : ℕ → List Body → String → ℝ → Option (Option (V3 ℤ))
  | 0, _, _, _ => none
  | fuel + 1, bodies, body, epoch =>
    match findBody bodies body with
    | none => some none
    | some body_cfg =>
      let parent_res : Option (Option (V3 ℤ)) :=
        match body_cfg.parent with
        | some parent => solvePositionAux fuel bodies parent epoch
        | none => some (some 0)
      match parent_res with
      | none => none
      | some none => some none
      | some (some parent_pos) =>
        if body_cfg.orbit.semi_major = 0 then some (some parent_pos)
        else some (some (parent_pos + solveOrbitOffset body_cfg.orbit epoch))

/-- Embedding of `Orrery::solve_position` at the fuel adequate for any orrery
produced by `init` (one lookup plus at most `length` parent hops). -/
noncomputable def solve_position (o : Orrery) (body : String) (epoch : ℝ) :
    Option (Option (V3 ℤ)) :=
  solvePositionAux (o.bodies.length + 1) o.bodies body epoch

/-- Embedding of `Orrery::solve_velocity` (not recursive: `none` is the
not-found result). -/
noncomputable def solve_velocity (o : Orrery) (body : String) (epoch : ℝ) : Option (V3 ℝ) :=
  match findBody o.bodies body with
  | none => none
  | some cfg =>
    if cfg.orbit.semi_major = 0 then some 0
    else
      let a := cfg.orbit.semi_major
      let T := cfg.orbit.period
      let mu := 4 * Real.pi * Real.pi * a ^ 3 / (T * T)
      let dt := epoch - epochFromMjd cfg.orbit.epoch
      let n := 2 * Real.pi / T
      let m := cfg.orbit.mean_anomaly + n * dt
      let e := cfg.orbit.eccentricity
      let bigE := keplerE e m
      let cosE := Real.cos bigE
      let sinE := Real.sin bigE
      let v := atan2 (Real.sqrt (1 - e * e) * sinE) (cosE - e)
      let h := Real.sqrt (mu * a * (1 - e * e))
      let vr := mu / h * e * sinE
      let vtheta := mu / h * (1 + e * cosE)
      let vx := vr * Real.cos v - vtheta * Real.sin v
      let vy := vr * Real.sin v + vtheta * Real.cos v
      let vel_orb : V3 ℝ := ⟨vx, vy, 0⟩
      some (Quat.rotate (inertialRot cfg.orbit) vel_orb)

/-- Embedding of `Orrery::solve_rotation` (not recursive: `none` is the
not-found result). -/
noncomputable def solve_rotation (o : Orrery) (body : String) (epoch : ℝ) : Option (Quat ℝ) :=
  match findBody o.bodies body with
  | none => none
  | some cfg =>
    if cfg.rotation.rotation_period = 0 then some Quat.one
    else
      let spin_angle :=
        2 * Real.pi * (epoch - epochFromMjd cfg.rotation.rotation_epoch) /
          cfg.rotation.rotation_period
      let orbit_rot := inertialRot cfg.orbit
      let eq_rot :=
        (Quat.mul (from_rotation_z cfg.rotation.eq_ascend_node)
            (from_rotation_x cfg.rotation.obliquity)).mul
          (from_rotation_z (spin_angle - cfg.rotation.eq_ascend_node))
      some (Quat.mul orbit_rot eq_rot)

/-- The ordering invariant `Orrery::init` establishes: every body's parent
name occurs at a strictly earlier index of the body list. -/
def ParentsEarlier (bodies : List Body) : Prop :=
  ∀ (i : ℕ) (b : Body), bodies[i]? = some b → ∀ p : String, b.parent = some p →
    ∃ j, j < i ∧ ∃ c : Body, bodies[j]? = some c ∧ c.name = p

/-! ## Gravity pass (`src/physics.rs`, `gravity`) -/

/-- The gravitational constant hard-coded in the `gravity` system
(`const GEE: f64 = 6.6473e-11`). -/
noncomputable def GEE : ℝ := 6.6473e-11

/-- The CODATA standard gravitational constant, `6.6743e-11` — the value named
by the spec's phrase "the standard gravitational constant"; stated here only to
be compared with the code's `GEE`. -/
noncomputable def standardG : ℝ := 6.6743e-11

/-- A celestial entity as seen by the gravity pass: entity id, the `Celestial`
body-name component, and its precise translation. -/
structure CelestialEntry where
  ent : ℕ
  name : String
  translation_mm : V3 ℤ

/-- The inner loop of `gravity` over all celestial bodies for one object,
threading `(force accumulator, biggest_gravity, closest_celestial)`.  The
`star.get_body(..).unwrap()` of the source panics when a celestial's body name
is not in the orrery; `none` models that panic. -/
noncomputable def gravityLoop (bodies : List Body) (objMass : ℝ) (objPos : V3 ℤ) :
    List CelestialEntry → V3 ℝ × ℝ × Option ℕ → Option (V3 ℝ × ℝ × Option ℕ)
  | [], st => some st
  | cel :: rest, (force, biggest, closest) =>
    match findBody bodies cel.name with
    | none => none
    | some b =>
      let cel_mass := b.mass
      let obj_to_cel : V3 ℝ := castV3 (to_meters_64 (cel.translation_mm - objPos))
      let r_squared := V3.normSq obj_to_cel
      let f := GEE * cel_mass * objMass / r_squared
      let next : ℝ × Option ℕ := if f > biggest then (f, some cel.ent) else (biggest, closest)
      gravityLoop bodies objMass objPos rest
        (force + (f * (Real.sqrt r_squared)⁻¹) • obj_to_cel, next.1, next.2)

/-- The per-object body of the `gravity` system: sum contributions over every
celestial, then emit the deferred sphere-of-influence command (`some c` stands
for `commands.entity(obj).insert(WithinSoi(c))`) exactly when a dominant
celestial exists and differs from the current `WithinSoi` value. -/
noncomputable def gravityObject (bodies : List Body) (cels : List CelestialEntry)
    (objMass : ℝ) (objPos : V3 ℤ) (force0 : V3 ℝ) (soi : Option ℕ) :
    Option (V3 ℝ × Option ℕ) :=
  match gravityLoop bodies objMass objPos cels (force0, 0, none) with
  | none => none
  | some (force, _, closest) =>
    some (force,
      match closest with
      | some c => if soi ≠ some c then some c else none
      | none => none)

end ToySim

namespace ToySim

/-! ## General algebra lemmas -/

namespace V3

variable {α : Type} [CommRing α]

@[simp] theorem add_def (a b : V3 α) : a + b = ⟨a.x + b.x, a.y + b.y, a.z + b.z⟩ := rfl

@[simp] theorem sub_def (a b : V3 α) : a - b = ⟨a.x - b.x, a.y - b.y, a.z - b.z⟩ := rfl

@[simp] theorem neg_def (a : V3 α) : -a = ⟨-a.x, -a.y, -a.z⟩ := rfl

@[simp] theorem zero_def : (0 : V3 α) = ⟨0, 0, 0⟩ := rfl

@[simp] theorem smul_def (s : α) (a : V3 α) : s • a = ⟨s * a.x, s * a.y, s * a.z⟩ := rfl

@[simp] theorem zero_x : (0 : V3 α).x = 0 := rfl

@[simp] theorem zero_y : (0 : V3 α).y = 0 := rfl

@[simp] theorem zero_z : (0 : V3 α).z = 0 := rfl

theorem eq_iff_parts (a b : V3 α) : a = b ↔ a.x = b.x ∧ a.y = b.y ∧ a.z = b.z := by
  constructor
  · intro h; subst h; exact ⟨rfl, rfl, rfl⟩
  · rintro ⟨hx, hy, hz⟩; cases a; cases b; simp_all

end V3

namespace Quat

variable {α : Type} [CommRing α]

theorem quat_eq_iff_parts (a b : Quat α) : a = b ↔ a.w = b.w ∧ a.x = b.x ∧ a.y = b.y ∧ a.z = b.z := by
  constructor
  · intro h; subst h; exact ⟨rfl, rfl, rfl, rfl⟩
  · rintro ⟨hw, hx, hy, hz⟩; cases a; cases b; simp_all

theorem rotate_add (q : Quat α) (a b : V3 α) :
    rotate q (a + b) = rotate q a + rotate q b := by
  obtain ⟨qw, qx, qy, qz⟩ := q
  obtain ⟨ax, ay, az⟩ := a
  obtain ⟨bx, by', bz⟩ := b
  simp only [rotate, V3.dot, V3.cross, V3.add_def, V3.smul_def]
  refine (V3.eq_iff_parts _ _).2 ⟨?_, ?_, ?_⟩ <;> ring

theorem rotate_sub (q : Quat α) (a b : V3 α) :
    rotate q (a - b) = rotate q a - rotate q b := by
  obtain ⟨qw, qx, qy, qz⟩ := q
  obtain ⟨ax, ay, az⟩ := a
  obtain ⟨bx, by', bz⟩ := b
  simp only [rotate, V3.dot, V3.cross, V3.add_def, V3.sub_def, V3.smul_def]
  refine (V3.eq_iff_parts _ _).2 ⟨?_, ?_, ?_⟩ <;> ring

theorem rotate_smul (q : Quat α) (s : α) (a : V3 α) :
    rotate q (s • a) = s • rotate q a := by
  obtain ⟨qw, qx, qy, qz⟩ := q
  obtain ⟨ax, ay, az⟩ := a
  simp only [rotate, V3.dot, V3.cross, V3.add_def, V3.smul_def]
  refine (V3.eq_iff_parts _ _).2 ⟨?_, ?_, ?_⟩ <;> ring

/-- Composing the rotation of a unit quaternion with the rotation of its
conjugate is the identity (general polynomial form: it scales by `normSq²`). -/
theorem rotate_conj_rotate (q : Quat α) (v : V3 α) :
    rotate q.conj (rotate q v) = (normSq q * normSq q) • v := by
  obtain ⟨qw, qx, qy, qz⟩ := q
  obtain ⟨vx, vy, vz⟩ := v
  simp only [rotate, conj, normSq, V3.dot, V3.cross, V3.smul_def, V3.add_def]
  refine (V3.eq_iff_parts _ _).2 ⟨?_, ?_, ?_⟩ <;> ring

theorem rotate_rotate_conj (q : Quat α) (v : V3 α) :
    rotate q (rotate q.conj v) = (normSq q * normSq q) • v := by
  obtain ⟨qw, qx, qy, qz⟩ := q
  obtain ⟨vx, vy, vz⟩ := v
  simp only [rotate, conj, normSq, V3.dot, V3.cross, V3.smul_def, V3.add_def]
  refine (V3.eq_iff_parts _ _).2 ⟨?_, ?_, ?_⟩ <;> ring

/-- Quaternion rotation scales squared vector length by `normSq²`. -/
theorem normSq_rotate (q : Quat α) (v : V3 α) :
    V3.normSq (rotate q v) = (normSq q * normSq q) * V3.normSq v := by
  obtain ⟨qw, qx, qy, qz⟩ := q
  obtain ⟨vx, vy, vz⟩ := v
  simp only [rotate, normSq, V3.normSq, V3.dot, V3.cross, V3.smul_def, V3.add_def]
  ring

/-- Multiplying by a quaternion after multiplying by its conjugate scales by
the squared norm. -/
theorem mul_conj_mul (q r : Quat α) :
    mul q (mul q.conj r) = ⟨normSq q * r.w, normSq q * r.x, normSq q * r.y, normSq q * r.z⟩ := by
  obtain ⟨qw, qx, qy, qz⟩ := q
  obtain ⟨rw, rx, ry, rz⟩ := r
  simp only [mul, conj, normSq]
  refine (quat_eq_iff_parts _ _).2 ⟨?_, ?_, ?_, ?_⟩ <;> ring

theorem rotate_one (v : V3 α) : rotate (one : Quat α) v = v := by
  obtain ⟨vx, vy, vz⟩ := v
  simp only [rotate, one, V3.dot, V3.cross, V3.smul_def, V3.add_def]
  refine (V3.eq_iff_parts _ _).2 ⟨?_, ?_, ?_⟩ <;> ring

end Quat

/-! ## Precision lemmas -/

theorem satI64_eq_self {n : ℤ} (h1 : i64min ≤ n) (h2 : n ≤ i64max) : satI64 n = n := by
  simp only [satI64]
  omega

/-- Rounding half away from zero moves a rational by at most one half. -/
theorem rustRound_close (q : ℚ) : |(rustRound q : ℚ) - q| ≤ 1 / 2 := by
  rw [abs_le]
  unfold rustRound
  by_cases h : 0 ≤ q
  · rw [if_pos h]
    have h1 := Int.floor_le (q + 1 / 2)
    have h2 := Int.lt_floor_add_one (q + 1 / 2)
    constructor <;> push_cast <;> linarith
  · rw [if_neg h]
    have h1 := Int.le_ceil (q - 1 / 2)
    have h2 := Int.ceil_lt_add_one (q - 1 / 2)
    constructor <;> push_cast <;> linarith

/-- Rounding recovers an integer exactly. -/
theorem rustRound_intCast (n : ℤ) : rustRound ((n : ℚ)) = n := by
  have hf : ⌊(n : ℚ) + 1 / 2⌋ = n := by
    rw [Int.floor_eq_iff]
    constructor <;> push_cast <;> linarith
  have hc : ⌈(n : ℚ) - 1 / 2⌉ = n := by
    rw [Int.ceil_eq_iff]
    constructor <;> push_cast <;> linarith
  unfold rustRound
  split
  · exact hf
  · exact hc

theorem one_smulV3 {α : Type} [CommRing α] (v : V3 α) : (1 : α) • v = v := by
  cases v; simp

/-- Converting exact millimeters to meters and back is lossless. -/
theorem to_millimeters_to_meters_64 (v : V3 ℤ) : to_millimeters (to_meters_64 v) = v := by
  obtain ⟨vx, vy, vz⟩ := v
  simp only [to_millimeters, to_meters_64]
  rw [div_mul_cancel₀ _ (by norm_num : (1000 : ℚ) ≠ 0),
    div_mul_cancel₀ _ (by norm_num : (1000 : ℚ) ≠ 0),
    div_mul_cancel₀ _ (by norm_num : (1000 : ℚ) ≠ 0),
    rustRound_intCast, rustRound_intCast, rustRound_intCast]

/-! ## Claim C1: floating-origin round trip -/

/-- Claim C1, amended.  The round trip `deproject ∘ project` reproduces a
`PreciseTransform` exactly — hence in particular to within one millimeter in
translation and exactly in rotation — provided the origin rotation is a unit
quaternion and neither the millimeter subtraction nor the re-addition
saturates the 64-bit range (the saturating hypotheses are stated as the
saturating operations agreeing with the exact ones).  Floating-point
arithmetic is modelled as exact; the claim as stated, quantified over *all*
transforms, fails at saturating inputs (see the counterexample). -/
theorem C1_roundtrip_amended (origin t : PreciseTransform)
    (hq : origin.rotation.normSq = 1)
    (hsub : satSub t.translation_mm origin.translation_mm =
      t.translation_mm - origin.translation_mm)
    (hadd : satAdd origin.translation_mm (t.translation_mm - origin.translation_mm) =
      t.translation_mm) :
    deproject origin (project origin t) = t := by
  obtain ⟨ot, q⟩ := origin
  obtain ⟨tt, r⟩ := t
  simp only at hq hsub hadd
  have htrans :
      satAdd ot (to_millimeters
        (Quat.rotate q (Quat.rotate q.conj (to_meters_64 (satSub tt ot))))) = tt := by
    rw [hsub, Quat.rotate_rotate_conj, hq, one_mul, one_smulV3,
      to_millimeters_to_meters_64, hadd]
  have hrot : Quat.mul q (Quat.mul q.conj r) = r := by
    rw [Quat.mul_conj_mul, hq]
    cases r
    simp
  simp only [deproject, project, project_loc, PreciseTransform.mk.injEq]
  exact ⟨htrans, hrot⟩

/-- Witness for C1: a concrete origin with unit non-trivial rotation and a
concrete transform, with all hypotheses discharged by evaluation. -/
theorem C1_witness :
    (⟨3 / 5, 4 / 5, 0, 0⟩ : Quat ℚ).normSq = 1 ∧
    satSub ⟨123456, -999, 42⟩ ⟨5, 7, -2⟩ = (⟨123456, -999, 42⟩ : V3 ℤ) - ⟨5, 7, -2⟩ ∧
    satAdd ⟨5, 7, -2⟩ ((⟨123456, -999, 42⟩ : V3 ℤ) - ⟨5, 7, -2⟩) = ⟨123456, -999, 42⟩ ∧
    deproject ⟨⟨5, 7, -2⟩, ⟨3 / 5, 4 / 5, 0, 0⟩⟩
        (project ⟨⟨5, 7, -2⟩, ⟨3 / 5, 4 / 5, 0, 0⟩⟩
          ⟨⟨123456, -999, 42⟩, ⟨1 / 3, 2 / 3, -2 / 3, 0⟩⟩) =
      ⟨⟨123456, -999, 42⟩, ⟨1 / 3, 2 / 3, -2 / 3, 0⟩⟩ := by
  have hq : (⟨3 / 5, 4 / 5, 0, 0⟩ : Quat ℚ).normSq = 1 := by norm_num [Quat.normSq]
  have hsub : satSub ⟨123456, -999, 42⟩ ⟨5, 7, -2⟩ =
      (⟨123456, -999, 42⟩ : V3 ℤ) - ⟨5, 7, -2⟩ := by
    simp only [satSub, satI64, i64min, i64max, V3.sub_def]
    norm_num
  have hadd : satAdd ⟨5, 7, -2⟩ ((⟨123456, -999, 42⟩ : V3 ℤ) - ⟨5, 7, -2⟩) =
      (⟨123456, -999, 42⟩ : V3 ℤ) := by
    simp only [satAdd, satI64, i64min, i64max, V3.sub_def]
    norm_num
  exact ⟨hq, hsub, hadd,
    C1_roundtrip_amended ⟨⟨5, 7, -2⟩, ⟨3 / 5, 4 / 5, 0, 0⟩⟩
      ⟨⟨123456, -999, 42⟩, ⟨1 / 3, 2 / 3, -2 / 3, 0⟩⟩ hq hsub hadd⟩

/-- Counterexample to C1 as stated: with the origin at the bottom of the `i64`
range and the transform at the top, the saturating subtraction clamps the
relative offset, and the round trip misses the original translation by far
more than one millimeter even with all floating-point arithmetic exact. -/
theorem C1_counterexample :
    1 < |((deproject ⟨⟨i64min, 0, 0⟩, Quat.one⟩
        (project ⟨⟨i64min, 0, 0⟩, Quat.one⟩ ⟨⟨i64max, 0, 0⟩, Quat.one⟩)).translation_mm.x
        - i64max : ℤ)| := by
  have h1 : project ⟨⟨i64min, 0, 0⟩, Quat.one⟩ ⟨⟨i64max, 0, 0⟩, Quat.one⟩ =
      ⟨⟨(i64max : ℚ) / 1000, 0, 0⟩, Quat.one⟩ := by
    simp only [project, project_loc, satSub, satI64, i64min, i64max, to_meters_64,
      Quat.rotate, Quat.conj, Quat.one, Quat.mul, V3.dot, V3.cross, V3.smul_def, V3.add_def,
      Transform.mk.injEq, Quat.mk.injEq, V3.mk.injEq]
    norm_num
  rw [h1]
  have h2 : deproject ⟨⟨i64min, 0, 0⟩, Quat.one⟩ ⟨⟨(i64max : ℚ) / 1000, 0, 0⟩, Quat.one⟩ =
      ⟨⟨-1, 0, 0⟩, Quat.one⟩ := by
    simp only [deproject, satAdd, satI64, i64min, i64max, to_millimeters, rustRound,
      Quat.rotate, Quat.conj, Quat.one, Quat.mul, V3.dot, V3.cross, V3.smul_def, V3.add_def,
      PreciseTransform.mk.injEq, Quat.mk.injEq, V3.mk.injEq]
    norm_num
  rw [h2]
  simp only [i64max]
  norm_num

/-! ## Claim C2: velocity-Verlet with constant force -/

/-- Closed form of the velocity-Verlet state under a constant re-applied force
from rest: after `n ≥ 1` ticks the velocity is `(n - 1/2)·dt·F/m` (the first
tick only contributes a half step because the stored previous acceleration
starts at zero) and the stored previous acceleration is `F/m`. -/
theorem applyForcesLin_iter_closed (mass dt : ℚ) (F : V3 ℚ) (s : LinState)
    (hv : s.vel = 0) (ha : s.acc_prev = 0) :
    ∀ n : ℕ, 1 ≤ n →
      ((applyForcesLin mass dt F)^[n] s).vel = (((n : ℚ) - 1 / 2) * dt / mass) • F ∧
      ((applyForcesLin mass dt F)^[n] s).acc_prev = (1 / mass) • F := by
  intro n hn
  obtain ⟨Fx, Fy, Fz⟩ := F
  induction n with
  | zero => omega
  | succ n ih =>
    rcases Nat.eq_zero_or_pos n with h0 | hpos
    · subst h0
      rw [Function.iterate_one]
      simp only [applyForcesLin, hv, ha, V3.smul_def, V3.add_def, V3.zero_def, V3.mk.injEq]
      push_cast
      and_intros <;> ring
    · obtain ⟨ihv, iha⟩ := ih hpos
      rw [Function.iterate_succ_apply']
      simp only [applyForcesLin, ihv, iha, V3.smul_def, V3.add_def, V3.mk.injEq]
      push_cast
      and_intros <;> ring

/-- Claim C2, amended.  A free body of mass `m`, starting from zero velocity
and zero stored previous acceleration, with its accumulated force set to the
same constant `F` before every tick, has after `n ≥ 1` ticks of length `dt`
the exact velocity `(n − 1/2)·dt·F/m` — not `n·dt·F/m` as claimed: the
velocity is short by the constant offset `dt·F/(2m)`, because the first tick
averages the stored zero previous acceleration with `F/m`.  Floating-point
arithmetic is modelled as exact rationals. -/
theorem C2_velocity_amended (mass dt : ℚ) (F : V3 ℚ) (t0 : V3 ℤ) (n : ℕ) (hn : 1 ≤ n) :
    (applyForcesLinIter mass dt F n ⟨t0, 0, 0⟩).vel = (((n : ℚ) - 1 / 2) * dt / mass) • F :=
  (applyForcesLin_iter_closed mass dt F ⟨t0, 0, 0⟩ rfl rfl n hn).1

/-- Witness for C2 at `m = 2`, `dt = 1/2`, `F = (4, 0, -8)`, `n = 3`. -/
theorem C2_witness :
    1 ≤ 3 ∧
    (applyForcesLinIter 2 (1 / 2) ⟨4, 0, -8⟩ 3 ⟨⟨0, 0, 0⟩, 0, 0⟩).vel =
      ((((3 : ℕ) : ℚ) - 1 / 2) * (1 / 2) / 2) • (⟨4, 0, -8⟩ : V3 ℚ) :=
  ⟨by norm_num, C2_velocity_amended 2 (1 / 2) ⟨4, 0, -8⟩ ⟨0, 0, 0⟩ 3 (by norm_num)⟩

/-- Counterexample to C2 as stated: one tick with `F = (1,0,0)`, `m = 1`,
`dt = 1` yields velocity `1/2`, while the claim predicts `F/m·n·dt = 1`; the
gap `1/2` (exact, with no floating-point rounding in the model) is not a
rounding tolerance. -/
theorem C2_counterexample :
    (applyForcesLinIter 1 1 ⟨1, 0, 0⟩ 1 ⟨⟨0, 0, 0⟩, 0, 0⟩).vel = ⟨1 / 2, 0, 0⟩ ∧
    ¬ (|(1 : ℚ) / 2 - 1 * (1 * 1) / 1| ≤ 1 / 1000) := by
  constructor
  · simp only [applyForcesLinIter, Function.iterate_one, applyForcesLin, V3.add_def,
      V3.smul_def, V3.zero_def, V3.mk.injEq]
    norm_num
  · rw [abs_of_neg (by norm_num)]
    norm_num

/-! ## Docking force-pass helpers -/

/-- A parent is found by `applyChildForce` exactly when the child's recorded
parent entity is among the parent entities. -/
theorem applyChildForce_isSome_iff (c : DockChildState) (ps : List DockParentState) :
    (applyChildForce c ps).isSome ↔ c.parent ∈ ps.map DockParentState.ent := by
  have hiff : (ps.any (fun p => p.ent == c.parent) = true) ↔
      c.parent ∈ ps.map DockParentState.ent := by
    rw [List.any_eq_true]
    constructor
    · rintro ⟨p, hp, hpe⟩
      exact List.mem_map.2 ⟨p, hp, beq_iff_eq.1 hpe⟩
    · intro hmem
      obtain ⟨p, hp, hpe⟩ := List.mem_map.1 hmem
      exact ⟨p, hp, beq_iff_eq.2 hpe⟩
  unfold applyChildForce
  by_cases hb : ps.any (fun p => p.ent == c.parent) = true
  · rw [if_pos hb]
    simpa using hiff.1 hb
  · rw [if_neg hb]
    simpa using fun hmem => hb (hiff.2 hmem)

/-- `applyChildForce` only updates accumulators: parent entity ids survive. -/
theorem applyChildForce_ents (c : DockChildState) (ps ps' : List DockParentState)
    (h : applyChildForce c ps = some ps') :
    ps'.map DockParentState.ent = ps.map DockParentState.ent := by
  unfold applyChildForce at h
  split at h
  · cases h
    rw [List.map_map]
    refine List.map_congr_left ?_
    intro p _
    simp only [Function.comp]
    split <;> rfl
  · cases h

/-- The force-redistribution pass completes (no panic) when every child's
recorded parent is present in the parent set. -/
theorem aggregate_dock_forces_isSome (cs : List DockChildState) :
    ∀ ps : List DockParentState,
      (∀ c ∈ cs, c.parent ∈ ps.map DockParentState.ent) →
      (aggregate_dock_forces cs ps).isSome := by
  induction cs with
  | nil => intro ps _; simp [aggregate_dock_forces]
  | cons c rest ih =>
    intro ps h
    have hc : (applyChildForce c ps).isSome :=
      (applyChildForce_isSome_iff c ps).2 (h c (List.mem_cons_self c rest))
    obtain ⟨ps', hps'⟩ := Option.isSome_iff_exists.1 hc
    have hrest : (aggregate_dock_forces rest ps').isSome := by
      refine ih ps' ?_
      intro c' hc'
      rw [applyChildForce_ents c ps ps' hps']
      exact h c' (List.mem_cons_of_mem c hc')
    obtain ⟨⟨cs2, ps2⟩, h2⟩ := Option.isSome_iff_exists.1 hrest
    simp [aggregate_dock_forces, hps', h2]

/-- The force-redistribution pass panics (the parent `unwrap` fails) whenever
some child's recorded parent is absent from the parent set. -/
theorem aggregate_dock_forces_none (cs : List DockChildState) :
    ∀ ps : List DockParentState, ∀ c ∈ cs,
      c.parent ∉ ps.map DockParentState.ent →
      aggregate_dock_forces cs ps = none := by
  induction cs with
  | nil => intro ps c hc; cases hc
  | cons c0 rest ih =>
    intro ps c hc hmiss
    rcases List.mem_cons.1 hc with rfl | hmem
    · have : ¬ (applyChildForce c ps).isSome := by
        rw [applyChildForce_isSome_iff]; exact hmiss
      have hnone : applyChildForce c ps = none := Option.not_isSome_iff_eq_none.1 this
      simp [aggregate_dock_forces, hnone]
    · cases hfirst : applyChildForce c0 ps with
      | none => simp [aggregate_dock_forces, hfirst]
      | some ps' =>
        have hmiss' : c.parent ∉ ps'.map DockParentState.ent := by
          rw [applyChildForce_ents c0 ps ps' hfirst]; exact hmiss
        have := ih ps' c hmem hmiss'
        simp [aggregate_dock_forces, hfirst, this]

/-- When a body name is absent from a body list, lookup fails. -/
theorem findBody_eq_none (l : List Body) (n : String) (h : ∀ b ∈ l, b.name ≠ n) :
    findBody l n = none := by
  induction l with
  | nil => rfl
  | cons b rest ih =>
    have hb : b.name ≠ n := h b (List.mem_cons_self b rest)
    simp only [findBody, if_neg hb]
    exact ih (fun b' hb' => h b' (List.mem_cons_of_mem b hb'))

/-! ## Claim C4: lookup misses -/

/-- Claim C4, amended.  Orbit-solver queries (`get_body`, `solve_position`,
`solve_velocity`, `solve_rotation`) for a body name that does not exist all
return the explicit not-found result (`none`; for the recursive
`solve_position`, `some none`) without panicking.  The docking
mass/force-aggregator, by contrast, does *not* return a not-found result for a
dock child whose recorded parent entity is absent from the parent set: its
unchecked parent lookup panics (modelled by `none`), as the counterexample
instantiates; it completes only when every child's parent is present. -/
theorem C4_lookup_amended :
    (∀ (o : Orrery) (name : String) (epoch : ℝ), (∀ b ∈ o.bodies, b.name ≠ name) →
      get_body o name = none ∧
      solve_position o name epoch = some none ∧
      solve_velocity o name epoch = none ∧
      solve_rotation o name epoch = none) ∧
    (∀ (cs : List DockChildState) (ps : List DockParentState),
      (∀ c ∈ cs, c.parent ∈ ps.map DockParentState.ent) →
      (aggregate_dock_forces cs ps).isSome) ∧
    (∀ (cs : List DockChildState) (ps : List DockParentState), ∀ c ∈ cs,
      c.parent ∉ ps.map DockParentState.ent →
      aggregate_dock_forces cs ps = none) := by
  refine ⟨?_, aggregate_dock_forces_isSome, aggregate_dock_forces_none⟩
  intro o name epoch h
  have hfind : findBody o.bodies name = none := findBody_eq_none o.bodies name h
  refine ⟨hfind, ?_, ?_, ?_⟩
  · unfold solve_position solvePositionAux
    rw [hfind]
  · unfold solve_velocity
    rw [hfind]
  · unfold solve_rotation
    rw [hfind]

/-- Witness for C4: a one-body orrery queried for an absent name, a well-formed
one-child dock, and an orphaned dock child. -/
theorem C4_witness :
    get_body ⟨"sys", [⟨"Sun", BodyClass.planet, none, ⟨0, 0, 0, 0, 0, 0, 0, 0⟩,
        ⟨0, 0, 0, 0⟩, 1, 1⟩]⟩ "X" = none ∧
    solve_position ⟨"sys", [⟨"Sun", BodyClass.planet, none, ⟨0, 0, 0, 0, 0, 0, 0, 0⟩,
        ⟨0, 0, 0, 0⟩, 1, 1⟩]⟩ "X" 0 = some none ∧
    solve_velocity ⟨"sys", [⟨"Sun", BodyClass.planet, none, ⟨0, 0, 0, 0, 0, 0, 0, 0⟩,
        ⟨0, 0, 0, 0⟩, 1, 1⟩]⟩ "X" 0 = none ∧
    solve_rotation ⟨"sys", [⟨"Sun", BodyClass.planet, none, ⟨0, 0, 0, 0, 0, 0, 0, 0⟩,
        ⟨0, 0, 0, 0⟩, 1, 1⟩]⟩ "X" 0 = none ∧
    (aggregate_dock_forces [⟨2, 1, M3.identity, 1, ⟨⟨0, 0, 0⟩, Quat.one⟩, 0, 0⟩]
      [⟨1, 1, M3.identity, M3.identity, ⟨⟨0, 0, 0⟩, Quat.one⟩, 0, 0⟩]).isSome := by
  have h := C4_lookup_amended
  have h1 := h.1 ⟨"sys", [⟨"Sun", BodyClass.planet, none, ⟨0, 0, 0, 0, 0, 0, 0, 0⟩,
      ⟨0, 0, 0, 0⟩, 1, 1⟩]⟩ "X" 0
    (by
      intro b hb
      rw [List.mem_singleton] at hb
      subst hb
      decide)
  refine ⟨h1.1, h1.2.1, h1.2.2.1, h1.2.2.2, ?_⟩
  refine h.2.1 _ _ ?_
  intro c hc
  rw [List.mem_singleton] at hc
  subst hc
  simp

/-- Counterexample to C4 as stated: a dock child whose recorded parent entity
is absent from the parent set makes the force aggregator hit
`parents.get_mut(dock.parent).unwrap()` on a failed lookup — a panic (`none`),
not a "not found" result. -/
theorem C4_counterexample :
    aggregate_dock_forces [⟨2, 1, M3.identity, 7, ⟨⟨0, 0, 0⟩, Quat.one⟩, 0, 0⟩]
      ([] : List DockParentState) = none := by
  simp [aggregate_dock_forces, applyChildForce]

/-! ## Claim C7: dock-tree depth -/

/-- Claim C7, amended.  Both docking passes handle only parents that are *not*
themselves dock children, because both parent queries filter
`Without<DockChild>`.  A parent entity that is itself a dock child of another
parent is therefore not processed: the aggregate pass leaves the offsets of its
children untouched (first conjunct), and the force pass panics on any of its
children, because the parent lookup excludes it (second conjunct).  Only for
trees in which every child's parent is a pure (non-child) `DockParent` — depth
one — does the force pass complete for every parent (third conjunct). -/
theorem C7_depth_amended :
    (∀ (ps : List DockParentState) (cs : List DockChildState) (c : DockChildState),
      c.parent ∉ ps.map DockParentState.ent → cogUpdateChild ps cs c = c) ∧
    (∀ (cs : List DockChildState) (ps : List DockParentState), ∀ c ∈ cs,
      c.parent ∉ ps.map DockParentState.ent → aggregate_dock_forces cs ps = none) ∧
    (∀ (cs : List DockChildState) (ps : List DockParentState),
      (∀ c ∈ cs, c.parent ∈ ps.map DockParentState.ent) →
      (aggregate_dock_forces cs ps).isSome) := by
  refine ⟨?_, aggregate_dock_forces_none, aggregate_dock_forces_isSome⟩
  intro ps cs c hmiss
  unfold cogUpdateChild
  rw [if_neg]
  intro hany
  rw [List.any_eq_true] at hany
  obtain ⟨p, hp, hpe⟩ := hany
  exact hmiss (List.mem_map.2 ⟨p, hp, beq_iff_eq.1 hpe⟩)

/-- Witness for C7: a mid-tree node's child is left untouched by the aggregate
pass, and a depth-one dock completes the force pass. -/
theorem C7_witness :
    cogUpdateChild [⟨1, 1, M3.identity, M3.identity, ⟨⟨0, 0, 0⟩, Quat.one⟩, 0, 0⟩]
      [⟨3, 1, M3.identity, 2, ⟨⟨2000, 0, 0⟩, Quat.one⟩, 0, 0⟩]
      ⟨3, 1, M3.identity, 2, ⟨⟨2000, 0, 0⟩, Quat.one⟩, 0, 0⟩ =
      ⟨3, 1, M3.identity, 2, ⟨⟨2000, 0, 0⟩, Quat.one⟩, 0, 0⟩ ∧
    (aggregate_dock_forces [⟨3, 1, M3.identity, 1, ⟨⟨2000, 0, 0⟩, Quat.one⟩, 0, 0⟩]
      [⟨1, 1, M3.identity, M3.identity, ⟨⟨0, 0, 0⟩, Quat.one⟩, 0, 0⟩]).isSome := by
  have h := C7_depth_amended
  constructor
  · refine h.1 _ _ _ ?_
    simp
  · refine h.2.2 _ _ ?_
    intro c hc
    rw [List.mem_singleton] at hc
    subst hc
    simp

/-- Counterexample to C7 as stated: in a two-level dock tree (parent `1`, its
dock-child `2` which is itself a dock parent, and `2`'s dock-child `3`), the
force pass panics on child `3` (its recorded parent `2` is excluded from the
parent query by `Without<DockChild>`), and the aggregate pass skips parent `2`,
leaving its child's offset untouched. -/
theorem C7_counterexample :
    aggregate_dock_forces
      [⟨2, 1, M3.identity, 1, ⟨⟨1000, 0, 0⟩, Quat.one⟩, ⟨1, 0, 0⟩, 0⟩,
       ⟨3, 1, M3.identity, 2, ⟨⟨2000, 0, 0⟩, Quat.one⟩, 0, 0⟩]
      [⟨1, 1, M3.identity, M3.identity, ⟨⟨0, 0, 0⟩, Quat.one⟩, 0, 0⟩] = none ∧
    cogUpdateChild [⟨1, 1, M3.identity, M3.identity, ⟨⟨0, 0, 0⟩, Quat.one⟩, 0, 0⟩]
      [⟨2, 1, M3.identity, 1, ⟨⟨1000, 0, 0⟩, Quat.one⟩, ⟨1, 0, 0⟩, 0⟩,
       ⟨3, 1, M3.identity, 2, ⟨⟨2000, 0, 0⟩, Quat.one⟩, 0, 0⟩]
      ⟨3, 1, M3.identity, 2, ⟨⟨2000, 0, 0⟩, Quat.one⟩, 0, 0⟩ =
      ⟨3, 1, M3.identity, 2, ⟨⟨2000, 0, 0⟩, Quat.one⟩, 0, 0⟩ := by
  constructor
  · simp [aggregate_dock_forces, applyChildForce]
  · simp [cogUpdateChild]

/-! ## Claim C6: re-centering and child world poses -/

theorem intCastV3_add (a b : V3 ℤ) : intCastV3 (a + b) = intCastV3 a + intCastV3 b := by
  cases a
  cases b
  simp only [intCastV3, V3.add_def, V3.mk.injEq]
  push_cast
  and_intros <;> rfl

theorem intCastV3_sub (a b : V3 ℤ) : intCastV3 (a - b) = intCastV3 a - intCastV3 b := by
  cases a
  cases b
  simp only [intCastV3, V3.sub_def, V3.mk.injEq]
  push_cast
  and_intros <;> rfl

/-- The change of a child's world pose under re-centering reduces to the
mismatch between rounding the rotated center and rotating the rounded
center. -/
theorem recentering_delta (q : Quat ℚ) (T off : V3 ℤ) (cog : V3 ℚ) :
    (intCastV3 (T + to_millimeters (Quat.rotate q cog)) +
        Quat.rotate q (intCastV3 (off - to_millimeters cog))) -
      (intCastV3 T + Quat.rotate q (intCastV3 off)) =
    intCastV3 (to_millimeters (Quat.rotate q cog)) -
      Quat.rotate q (intCastV3 (to_millimeters cog)) := by
  rw [intCastV3_add, intCastV3_sub, Quat.rotate_sub]
  simp only [V3.add_def, V3.sub_def, V3.mk.injEq]
  and_intros <;> ring

theorem abs_le_78 (t : ℚ) (h : t ^ 2 ≤ 3 / 4) : |t| ≤ 7 / 8 := by
  rw [abs_le]
  constructor <;> nlinarith

/-- A unit-quaternion rotation of a vector with all components at most one
half in magnitude has all components at most `7/8` in magnitude. -/
theorem rotate_unit_comp_bound (q : Quat ℚ) (hq : q.normSq = 1) (w : V3 ℚ)
    (hx : |w.x| ≤ 1 / 2) (hy : |w.y| ≤ 1 / 2) (hz : |w.z| ≤ 1 / 2) :
    |(Quat.rotate q w).x| ≤ 7 / 8 ∧ |(Quat.rotate q w).y| ≤ 7 / 8 ∧
      |(Quat.rotate q w).z| ≤ 7 / 8 := by
  have hns : V3.normSq (Quat.rotate q w) = V3.normSq w := by
    rw [Quat.normSq_rotate, hq]
    ring
  have hw : V3.normSq w ≤ 3 / 4 := by
    obtain ⟨h1, h2⟩ := abs_le.1 hx
    obtain ⟨h3, h4⟩ := abs_le.1 hy
    obtain ⟨h5, h6⟩ := abs_le.1 hz
    simp only [V3.normSq, V3.dot]
    nlinarith
  have hb : V3.normSq (Quat.rotate q w) ≤ 3 / 4 := by rw [hns]; exact hw
  simp only [V3.normSq, V3.dot] at hb
  refine ⟨abs_le_78 _ ?_, abs_le_78 _ ?_, abs_le_78 _ ?_⟩ <;> nlinarith
    [sq_nonneg (Quat.rotate q w).x, sq_nonneg (Quat.rotate q w).y,
     sq_nonneg (Quat.rotate q w).z]

/-- The rounding mismatch between the rotated-then-rounded and the
rounded-then-rotated center of gravity is at most `11/8` millimeters per
axis. -/
theorem recentering_bound (q : Quat ℚ) (hq : q.normSq = 1) (cog : V3 ℚ) :
    |(intCastV3 (to_millimeters (Quat.rotate q cog)) -
        Quat.rotate q (intCastV3 (to_millimeters cog))).x| ≤ 11 / 8 ∧
    |(intCastV3 (to_millimeters (Quat.rotate q cog)) -
        Quat.rotate q (intCastV3 (to_millimeters cog))).y| ≤ 11 / 8 ∧
    |(intCastV3 (to_millimeters (Quat.rotate q cog)) -
        Quat.rotate q (intCastV3 (to_millimeters cog))).z| ≤ 11 / 8 := by
  set X := Quat.rotate q cog with hX
  set w : V3 ℚ := intCastV3 (to_millimeters cog) - (1000 : ℚ) • cog with hw
  have hsplit : intCastV3 (to_millimeters cog) = (1000 : ℚ) • cog + w := by
    rw [hw]
    simp only [V3.smul_def, V3.sub_def, V3.add_def, V3.mk.injEq]
    and_intros <;> ring
  have hwx : |w.x| ≤ 1 / 2 := by
    have := rustRound_close (cog.x * 1000)
    rw [hw]
    simp only [intCastV3, to_millimeters, V3.smul_def, V3.sub_def]
    calc |(rustRound (cog.x * 1000) : ℚ) - 1000 * cog.x|
        = |(rustRound (cog.x * 1000) : ℚ) - cog.x * 1000| := by ring_nf
      _ ≤ 1 / 2 := this
  have hwy : |w.y| ≤ 1 / 2 := by
    have := rustRound_close (cog.y * 1000)
    rw [hw]
    simp only [intCastV3, to_millimeters, V3.smul_def, V3.sub_def]
    calc |(rustRound (cog.y * 1000) : ℚ) - 1000 * cog.y|
        = |(rustRound (cog.y * 1000) : ℚ) - cog.y * 1000| := by ring_nf
      _ ≤ 1 / 2 := this
  have hwz : |w.z| ≤ 1 / 2 := by
    have := rustRound_close (cog.z * 1000)
    rw [hw]
    simp only [intCastV3, to_millimeters, V3.smul_def, V3.sub_def]
    calc |(rustRound (cog.z * 1000) : ℚ) - 1000 * cog.z|
        = |(rustRound (cog.z * 1000) : ℚ) - cog.z * 1000| := by ring_nf
      _ ≤ 1 / 2 := this
  obtain ⟨hrx, hry, hrz⟩ := rotate_unit_comp_bound q hq w hwx hwy hwz
  have hrot : Quat.rotate q (intCastV3 (to_millimeters cog)) =
      (1000 : ℚ) • X + Quat.rotate q w := by
    rw [hsplit, Quat.rotate_add, Quat.rotate_smul, hX]
  have hex := rustRound_close (X.x * 1000)
  have hey := rustRound_close (X.y * 1000)
  have hez := rustRound_close (X.z * 1000)
  rw [hrot]
  simp only [intCastV3, to_millimeters, V3.smul_def, V3.sub_def, V3.add_def]
  refine ⟨?_, ?_, ?_⟩
  · calc |(rustRound (X.x * 1000) : ℚ) - (1000 * X.x + (Quat.rotate q w).x)|
        = |((rustRound (X.x * 1000) : ℚ) - X.x * 1000) + (-(Quat.rotate q w).x)| := by ring_nf
      _ ≤ |(rustRound (X.x * 1000) : ℚ) - X.x * 1000| + |(-(Quat.rotate q w).x)| := abs_add _ _
      _ ≤ 1 / 2 + 7 / 8 := by rw [abs_neg]; exact add_le_add hex hrx
      _ = 11 / 8 := by norm_num
  · calc |(rustRound (X.y * 1000) : ℚ) - (1000 * X.y + (Quat.rotate q w).y)|
        = |((rustRound (X.y * 1000) : ℚ) - X.y * 1000) + (-(Quat.rotate q w).y)| := by ring_nf
      _ ≤ |(rustRound (X.y * 1000) : ℚ) - X.y * 1000| + |(-(Quat.rotate q w).y)| := abs_add _ _
      _ ≤ 1 / 2 + 7 / 8 := by rw [abs_neg]; exact add_le_add hey hry
      _ = 11 / 8 := by norm_num
  · calc |(rustRound (X.z * 1000) : ℚ) - (1000 * X.z + (Quat.rotate q w).z)|
        = |((rustRound (X.z * 1000) : ℚ) - X.z * 1000) + (-(Quat.rotate q w).z)| := by ring_nf
      _ ≤ |(rustRound (X.z * 1000) : ℚ) - X.z * 1000| + |(-(Quat.rotate q w).z)| := abs_add _ _
      _ ≤ 1 / 2 + 7 / 8 := by rw [abs_neg]; exact add_le_add hez hrz
      _ = 11 / 8 := by norm_num

/-- Claim C6, amended.  For a dock parent with unit rotation and nonzero total
child mass, the aggregate pass changes each child's world pose
(`parent_translation + parent_rotation·child_local_offset`, in millimeters)
by at most `11/8` millimeter per axis — the mismatch between rounding the
world-rotated center-of-gravity shift and rounding the local shift.  The pose
is *not* always exactly unchanged as claimed (see the counterexample), because
the two `to_millimeters` roundings do not commute with the rotation. -/
theorem C6_pose_amended (cs : List DockChildState) (ps : List DockParentState)
    (p : DockParentState) (hp : p ∈ ps) (c : DockChildState) (hc : c ∈ cs)
    (hparent : c.parent = p.ent) (hunit : p.ptf.rotation.normSq = 1)
    (hmass : groupMass (dockGroup cs p.ent) ≠ 0) :
    |((dockChildWorld (cogUpdateParent cs p) (cogUpdateChild ps cs c)) -
        dockChildWorld p c).x| ≤ 11 / 8 ∧
    |((dockChildWorld (cogUpdateParent cs p) (cogUpdateChild ps cs c)) -
        dockChildWorld p c).y| ≤ 11 / 8 ∧
    |((dockChildWorld (cogUpdateParent cs p) (cogUpdateChild ps cs c)) -
        dockChildWorld p c).z| ≤ 11 / 8 := by
  have hg : c ∈ dockGroup cs p.ent := by
    rw [dockGroup, List.mem_filter]
    exact ⟨hc, by simp [hparent]⟩
  have hempty : (dockGroup cs p.ent).isEmpty = false := by
    rw [List.isEmpty_eq_false]
    exact List.ne_nil_of_mem hg
  have hPt : (cogUpdateParent cs p).ptf =
      ⟨p.ptf.translation_mm +
          to_millimeters (Quat.rotate p.ptf.rotation (groupCog (dockGroup cs p.ent))),
        p.ptf.rotation⟩ := by
    unfold cogUpdateParent
    rw [if_neg (by simp [hempty]), if_neg hmass]
  have hany : ps.any (fun p' => p'.ent == c.parent) = true :=
    List.any_eq_true.2 ⟨p, hp, beq_iff_eq.2 hparent.symm⟩
  have hCt : (cogUpdateChild ps cs c).rel_tf =
      ⟨c.rel_tf.translation_mm - to_millimeters (groupCog (dockGroup cs p.ent)),
        c.rel_tf.rotation⟩ := by
    unfold cogUpdateChild
    rw [if_pos hany, hparent, if_neg hmass]
  have hdiff : dockChildWorld (cogUpdateParent cs p) (cogUpdateChild ps cs c) -
      dockChildWorld p c =
      intCastV3 (to_millimeters (Quat.rotate p.ptf.rotation (groupCog (dockGroup cs p.ent)))) -
        Quat.rotate p.ptf.rotation (intCastV3 (to_millimeters (groupCog (dockGroup cs p.ent)))) := by
    simp only [dockChildWorld, hPt, hCt]
    exact recentering_delta p.ptf.rotation p.ptf.translation_mm c.rel_tf.translation_mm
      (groupCog (dockGroup cs p.ent))
  rw [hdiff]
  exact recentering_bound p.ptf.rotation hunit (groupCog (dockGroup cs p.ent))

/-- Witness for C6: a single child of mass one at offset `(1,0,0)` mm under a
parent rotated by the rational unit quaternion `(3/5, 0, 0, 4/5)`. -/
theorem C6_witness :
    |((dockChildWorld
        (cogUpdateParent [⟨2, 1, M3.identity, 1, ⟨⟨1, 0, 0⟩, Quat.one⟩, 0, 0⟩]
          ⟨1, 1, M3.identity, M3.identity, ⟨⟨0, 0, 0⟩, ⟨3 / 5, 0, 0, 4 / 5⟩⟩, 0, 0⟩)
        (cogUpdateChild [⟨1, 1, M3.identity, M3.identity, ⟨⟨0, 0, 0⟩, ⟨3 / 5, 0, 0, 4 / 5⟩⟩, 0, 0⟩]
          [⟨2, 1, M3.identity, 1, ⟨⟨1, 0, 0⟩, Quat.one⟩, 0, 0⟩]
          ⟨2, 1, M3.identity, 1, ⟨⟨1, 0, 0⟩, Quat.one⟩, 0, 0⟩)) -
      dockChildWorld ⟨1, 1, M3.identity, M3.identity, ⟨⟨0, 0, 0⟩, ⟨3 / 5, 0, 0, 4 / 5⟩⟩, 0, 0⟩
        ⟨2, 1, M3.identity, 1, ⟨⟨1, 0, 0⟩, Quat.one⟩, 0, 0⟩).x| ≤ 11 / 8 := by
  refine (C6_pose_amended
    [⟨2, 1, M3.identity, 1, ⟨⟨1, 0, 0⟩, Quat.one⟩, 0, 0⟩]
    [⟨1, 1, M3.identity, M3.identity, ⟨⟨0, 0, 0⟩, ⟨3 / 5, 0, 0, 4 / 5⟩⟩, 0, 0⟩]
    ⟨1, 1, M3.identity, M3.identity, ⟨⟨0, 0, 0⟩, ⟨3 / 5, 0, 0, 4 / 5⟩⟩, 0, 0⟩
    (List.mem_singleton.2 rfl)
    ⟨2, 1, M3.identity, 1, ⟨⟨1, 0, 0⟩, Quat.one⟩, 0, 0⟩
    (List.mem_singleton.2 rfl) rfl ?_ ?_).1
  · norm_num [Quat.normSq]
  · norm_num [groupMass, dockGroup]

/-- Counterexample to C6 as stated: with the same single-child dock under the
unit rotation `(3/5, 0, 0, 4/5)`, the child's world pose moves from
`(-7/25, 24/25, 0)` to `(0, 1, 0)` millimeters — re-centering does *not* leave
the pose exactly unchanged. -/
theorem C6_counterexample :
    dockChildWorld
        (cogUpdateParent [⟨2, 1, M3.identity, 1, ⟨⟨1, 0, 0⟩, Quat.one⟩, 0, 0⟩]
          ⟨1, 1, M3.identity, M3.identity, ⟨⟨0, 0, 0⟩, ⟨3 / 5, 0, 0, 4 / 5⟩⟩, 0, 0⟩)
        (cogUpdateChild [⟨1, 1, M3.identity, M3.identity, ⟨⟨0, 0, 0⟩, ⟨3 / 5, 0, 0, 4 / 5⟩⟩, 0, 0⟩]
          [⟨2, 1, M3.identity, 1, ⟨⟨1, 0, 0⟩, Quat.one⟩, 0, 0⟩]
          ⟨2, 1, M3.identity, 1, ⟨⟨1, 0, 0⟩, Quat.one⟩, 0, 0⟩) ≠
      dockChildWorld ⟨1, 1, M3.identity, M3.identity, ⟨⟨0, 0, 0⟩, ⟨3 / 5, 0, 0, 4 / 5⟩⟩, 0, 0⟩
        ⟨2, 1, M3.identity, 1, ⟨⟨1, 0, 0⟩, Quat.one⟩, 0, 0⟩ := by
  have hL : dockChildWorld
      (cogUpdateParent [⟨2, 1, M3.identity, 1, ⟨⟨1, 0, 0⟩, Quat.one⟩, 0, 0⟩]
        ⟨1, 1, M3.identity, M3.identity, ⟨⟨0, 0, 0⟩, ⟨3 / 5, 0, 0, 4 / 5⟩⟩, 0, 0⟩)
      (cogUpdateChild [⟨1, 1, M3.identity, M3.identity, ⟨⟨0, 0, 0⟩, ⟨3 / 5, 0, 0, 4 / 5⟩⟩, 0, 0⟩]
        [⟨2, 1, M3.identity, 1, ⟨⟨1, 0, 0⟩, Quat.one⟩, 0, 0⟩]
        ⟨2, 1, M3.identity, 1, ⟨⟨1, 0, 0⟩, Quat.one⟩, 0, 0⟩) = ⟨0, 1, 0⟩ := by
    norm_num [dockChildWorld, cogUpdateParent, cogUpdateChild, dockGroup, groupCog, groupMass,
      groupMR, to_millimeters, to_meters_64, rustRound, intCastV3, Quat.rotate, V3.dot,
      V3.cross, V3.vsum, V3.smul_def, V3.add_def, V3.sub_def, V3.zero_x, V3.zero_y, V3.zero_z,
      V3.mk.injEq, childInertia]
  have hR : dockChildWorld ⟨1, 1, M3.identity, M3.identity, ⟨⟨0, 0, 0⟩, ⟨3 / 5, 0, 0, 4 / 5⟩⟩, 0, 0⟩
      ⟨2, 1, M3.identity, 1, ⟨⟨1, 0, 0⟩, Quat.one⟩, 0, 0⟩ = ⟨-7 / 25, 24 / 25, 0⟩ := by
    norm_num [dockChildWorld, intCastV3, Quat.rotate, V3.dot, V3.cross, V3.smul_def,
      V3.add_def, V3.mk.injEq]
  rw [hL, hR]
  intro h
  have := (V3.eq_iff_parts _ _).1 h
  norm_num at this

/-! ## Orrery lookup and construction lemmas -/

theorem findBodyIdx_lt_length (l : List Body) (n : String) :
    ∀ i : ℕ, findBodyIdx l n = some i → i < l.length := by
  induction l with
  | nil => intro i h; cases h
  | cons b rest ih =>
    intro i h
    simp only [findBodyIdx] at h
    by_cases hn : b.name = n
    · rw [if_pos hn] at h
      cases h
      simp
    · rw [if_neg hn] at h
      cases e : findBodyIdx rest n with
      | none => rw [e] at h; cases h
      | some j =>
        rw [e] at h
        cases h
        have := ih j e
        simp
        omega

theorem findBodyIdx_spec (l : List Body) (n : String) :
    ∀ i : ℕ, findBodyIdx l n = some i →
      ∃ b : Body, l[i]? = some b ∧ b.name = n ∧ findBody l n = some b := by
  induction l with
  | nil => intro i h; cases h
  | cons b rest ih =>
    intro i h
    simp only [findBodyIdx] at h
    by_cases hn : b.name = n
    · rw [if_pos hn] at h
      cases h
      exact ⟨b, by simp, hn, by simp [findBody, hn]⟩
    · rw [if_neg hn] at h
      cases e : findBodyIdx rest n with
      | none => rw [e] at h; cases h
      | some j =>
        rw [e] at h
        cases h
        obtain ⟨c, hcj, hcn, hcf⟩ := ih j e
        exact ⟨c, by simpa using hcj, hcn, by simp [findBody, hn, hcf]⟩

theorem findBodyIdx_min (l : List Body) (n : String) :
    ∀ (j : ℕ) (c : Body), l[j]? = some c → c.name = n →
      ∃ i : ℕ, findBodyIdx l n = some i ∧ i ≤ j := by
  induction l with
  | nil => intro j c h; cases h
  | cons b rest ih =>
    intro j c hj hn
    by_cases hb : b.name = n
    · exact ⟨0, by simp [findBodyIdx, hb], Nat.zero_le j⟩
    · cases j with
      | zero =>
        simp only [List.getElem?_cons_zero] at hj
        cases hj
        exact absurd hn hb
      | succ j =>
        simp only [List.getElem?_cons_succ] at hj
        obtain ⟨i, hi, hile⟩ := ih j c hj hn
        exact ⟨i + 1, by simp [findBodyIdx, hb, hi], by omega⟩

theorem findBody_none_iff (l : List Body) (n : String) :
    findBody l n = none ↔ findBodyIdx l n = none := by
  induction l with
  | nil => simp [findBody, findBodyIdx]
  | cons b rest ih =>
    by_cases hb : b.name = n
    · simp [findBody, findBodyIdx, hb]
    · simp [findBody, findBodyIdx, hb, ih]

theorem findBody_isSome_spec (l : List Body) (n : String)
    (h : (findBody l n).isSome = true) :
    ∃ (j : ℕ) (c : Body), j < l.length ∧ l[j]? = some c ∧ c.name = n ∧
      findBody l n = some c := by
  cases e : findBodyIdx l n with
  | none =>
    rw [← findBody_none_iff] at e
    rw [e] at h
    cases h
  | some i =>
    obtain ⟨b, hbi, hbn, hbf⟩ := findBodyIdx_spec l n i e
    exact ⟨i, b, findBodyIdx_lt_length l n i e, hbi, hbn, hbf⟩

theorem findBody_append_some (l l2 : List Body) (n : String) (c : Body)
    (h : findBody l n = some c) : findBody (l ++ l2) n = some c := by
  induction l with
  | nil => cases h
  | cons b rest ih =>
    simp only [findBody] at h ⊢
    by_cases hb : b.name = n
    · rw [if_pos hb] at h ⊢
      exact h
    · rw [if_neg hb] at h ⊢
      exact ih h

theorem findBody_append_none (l l2 : List Body) (n : String)
    (h : findBody l n = none) : findBody (l ++ l2) n = findBody l2 n := by
  induction l with
  | nil => rfl
  | cons b rest ih =>
    simp only [findBody] at h ⊢
    by_cases hb : b.name = n
    · rw [if_pos hb] at h
      cases h
    · rw [if_neg hb] at h ⊢
      exact ih h

theorem fillPeriod_name (acc : List Body) (b : Body) : (fillPeriod acc b).name = b.name := by
  unfold fillPeriod
  split <;> rfl

theorem fillPeriod_parent (acc : List Body) (b : Body) :
    (fillPeriod acc b).parent = b.parent := by
  unfold fillPeriod
  split <;> rfl

theorem fillPeriod_mass (acc : List Body) (b : Body) : (fillPeriod acc b).mass = b.mass := by
  unfold fillPeriod
  split <;> rfl

/-- Unfolding of one successful `initAux` step: the parent check and the
duplicate check passed, and the filled body was appended. -/
theorem initAux_cons_ok (acc : List Body) (b : Body) (rest o : List Body)
    (h : initAux acc (b :: rest) = Except.ok o) :
    (match b.parent with
      | some parent => (findBody acc parent).isNone
      | none => false) = false ∧
    (findBody acc b.name).isSome = false ∧
    initAux (acc ++ [fillPeriod acc b]) rest = Except.ok o := by
  by_cases h1 : (match b.parent with
      | some parent => (findBody acc parent).isNone
      | none => false) = true
  · rw [initAux, if_pos h1] at h
    cases h
  · have h1f : (match b.parent with
        | some parent => (findBody acc parent).isNone
        | none => false) = false := by
      cases e : (match b.parent with
          | some parent => (findBody acc parent).isNone
          | none => false)
      · rfl
      · exact absurd e h1
    rw [initAux, if_neg h1] at h
    by_cases h2 : (findBody acc b.name).isSome = true
    · rw [if_pos h2] at h
      cases h
    · have h2f : (findBody acc b.name).isSome = false := by
        cases e : (findBody acc b.name).isSome
        · rfl
        · exact absurd e h2
      rw [if_neg h2] at h
      exact ⟨h1f, h2f, h⟩

theorem initAux_prefix :
    ∀ (rest acc o : List Body), initAux acc rest = Except.ok o → ∃ tail, o = acc ++ tail := by
  intro rest
  induction rest with
  | nil =>
    intro acc o h
    rw [initAux] at h
    cases h
    exact ⟨[], by simp⟩
  | cons b rest ih =>
    intro acc o h
    obtain ⟨_, _, hrec⟩ := initAux_cons_ok acc b rest o h
    obtain ⟨tail, htail⟩ := ih (acc ++ [fillPeriod acc b]) o hrec
    exact ⟨fillPeriod acc b :: tail, by simp [htail]⟩

/-- `initAux` preserves and establishes the parents-inserted-earlier
invariant. -/
theorem initAux_parentsEarlier :
    ∀ (rest acc o : List Body), ParentsEarlier acc →
      initAux acc rest = Except.ok o → ParentsEarlier o := by
  intro rest
  induction rest with
  | nil =>
    intro acc o hacc h
    rw [initAux] at h
    cases h
    exact hacc
  | cons b rest ih =>
    intro acc o hacc h
    obtain ⟨h1, _, hrec⟩ := initAux_cons_ok acc b rest o h
    refine ih (acc ++ [fillPeriod acc b]) o ?_ hrec
    intro i bb hbb p hp
    by_cases hi : i < acc.length
    · rw [List.getElem?_append_left hi] at hbb
      obtain ⟨j, hj, c, hcj, hcn⟩ := hacc i bb hbb p hp
      refine ⟨j, hj, c, ?_, hcn⟩
      rw [List.getElem?_append_left (by omega)]
      exact hcj
    · have hlen : i < acc.length + 1 := by
        by_contra hge
        have : (acc ++ [fillPeriod acc b])[i]? = none := by
          apply List.getElem?_eq_none
          simp only [List.length_append, List.length_singleton]
          omega
        rw [this] at hbb
        cases hbb
      have hieq : i = acc.length := by omega
      subst hieq
      have hbb' : bb = fillPeriod acc b := by
        rw [List.getElem?_append_right (by omega)] at hbb
        simp at hbb
        exact hbb.symm
      subst hbb'
      rw [fillPeriod_parent] at hp
      have hpar : (findBody acc p).isNone = false := by
        rw [hp] at h1
        exact h1
      have hsome : (findBody acc p).isSome = true := by
        cases e : findBody acc p
        · rw [e] at hpar
          cases hpar
        · simp
      obtain ⟨j, c, hjlen, hcj, hcn, _⟩ := findBody_isSome_spec acc p hsome
      refine ⟨j, hjlen, c, ?_, hcn⟩
      rw [List.getElem?_append_left hjlen]
      exact hcj

/-- With the parents-earlier invariant, the recursive position solve never
exhausts its fuel when the fuel exceeds the index of the queried body: each
parent hop moves strictly down the insertion order. -/
theorem solvePositionAux_isSome_of_idx (bodies : List Body) (hwf : ParentsEarlier bodies) :
    ∀ (fuel : ℕ) (name : String) (i : ℕ), findBodyIdx bodies name = some i → i < fuel →
      ∀ epoch : ℝ, (solvePositionAux fuel bodies name epoch).isSome = true := by
  intro fuel
  induction fuel with
  | zero => intro name i _ hlt; omega
  | succ fuel ih =>
    intro name i hidx hlt epoch
    obtain ⟨b, hbi, _, hfind⟩ := findBodyIdx_spec bodies name i hidx
    rw [solvePositionAux, hfind]
    cases hpar : b.parent with
    | none =>
      by_cases hsm : b.orbit.semi_major = 0 <;> simp [hpar, hsm]
    | some p =>
      obtain ⟨j, hji, c, hcj, hcn⟩ := hwf i b hbi p hpar
      obtain ⟨i', hi', hile⟩ := findBodyIdx_min bodies p j c hcj hcn
      have hrec := ih p i' hi' (by omega) epoch
      obtain ⟨x, hx⟩ := Option.isSome_iff_exists.1 hrec
      simp only [hpar, hx]
      cases x with
      | none => simp
      | some pp =>
        by_cases hsm : b.orbit.semi_major = 0 <;> simp [hsm]

/-- The period Kepler's-third-law fill of `initAux`, related to the finished
body list: look up the parent and the stored body in the final list. -/
theorem initAux_period :
    ∀ (rest acc o : List Body), initAux acc rest = Except.ok o →
      ∀ (i : ℕ) (b : Body), rest[i]? = some b → b.orbit.period = 0 →
        b.orbit.semi_major ≠ 0 → ∀ p : String, b.parent = some p →
        ∃ P b' : Body, findBody o p = some P ∧ findBody o b.name = some b' ∧
          b'.orbit.period =
            2 * Real.pi * Real.sqrt (b.orbit.semi_major ^ 3 / (G * (P.mass + b.mass))) := by
  intro rest
  induction rest with
  | nil => intro acc o _ i b hb; cases hb
  | cons b0 rest ih =>
    intro acc o h i b hb hper hsm p hp
    obtain ⟨h1, h2, hrec⟩ := initAux_cons_ok acc b0 rest o h
    cases i with
    | zero =>
      simp only [List.getElem?_cons_zero] at hb
      have hb0 : b0 = b := by simpa using hb
      subst hb0
      rw [hp] at h1
      have h1' : (findBody acc p).isNone = false := h1
      have hPacc : ∃ P0, findBody acc p = some P0 := by
        cases e : findBody acc p with
        | none => rw [e] at h1'; simp at h1'
        | some P0 => exact ⟨P0, rfl⟩
      obtain ⟨P0, hP0⟩ := hPacc
      obtain ⟨tail, htail⟩ := initAux_prefix rest (acc ++ [fillPeriod acc b0]) o hrec
      have hoeq : o = acc ++ (fillPeriod acc b0 :: tail) := by
        rw [htail, List.append_assoc]
        rfl
      have hdup : findBody acc b0.name = none := by
        cases e : findBody acc b0.name with
        | none => rfl
        | some c => rw [e] at h2; cases h2
      refine ⟨P0, fillPeriod acc b0, ?_, ?_, ?_⟩
      · rw [hoeq, findBody_append_some acc _ p P0 hP0]
      · rw [hoeq, findBody_append_none acc _ _ hdup]
        simp [findBody, fillPeriod_name]
      · unfold fillPeriod
        rw [if_pos ⟨hper, hsm⟩]
        simp only [hp, hP0]
    | succ i =>
      simp only [List.getElem?_cons_succ] at hb
      exact ih (acc ++ [fillPeriod acc b0]) o hrec i b hb hper hsm p hp

/-- Successful `init` inverts to a successful `initAux` run from the empty
accumulator. -/
theorem init_ok_iff (cfg : OrreryCfg) (o : Orrery) (h : init cfg = Except.ok o) :
    initAux [] cfg.bodies = Except.ok o.bodies := by
  unfold init at h
  cases e : initAux [] cfg.bodies with
  | error msg =>
    rw [e] at h
    cases h
  | ok bs =>
    rw [e] at h
    cases h
    rfl

/-! ## Claim C10: acyclic parent chains and termination -/

/-- Claim C10, confirmed.  For every orrery successfully constructed by
`Orrery::init`, every body's parent name occurs at a strictly earlier index
(so parent chains are finite and acyclic: no body is its own ancestor), and
the recursive `solve_position` therefore terminates — with fuel one more than
the body count, standing for the bounded recursion depth, it never exhausts
the fuel, for every body name and every epoch. -/
theorem C10_parent_chains (cfg : OrreryCfg) (o : Orrery) (h : init cfg = Except.ok o) :
    ParentsEarlier o.bodies ∧
    ∀ (name : String) (epoch : ℝ), (solve_position o name epoch).isSome = true := by
  have hinit := init_ok_iff cfg o h
  have hwf : ParentsEarlier o.bodies :=
    initAux_parentsEarlier cfg.bodies [] o.bodies (fun i b hb => by cases hb) hinit
  refine ⟨hwf, ?_⟩
  intro name epoch
  unfold solve_position
  cases hidx : findBodyIdx o.bodies name with
  | none =>
    rw [← findBody_none_iff] at hidx
    rw [solvePositionAux, hidx]
    rfl
  | some i =>
    have hlen := findBodyIdx_lt_length o.bodies name i hidx
    exact solvePositionAux_isSome_of_idx o.bodies hwf (o.bodies.length + 1) name i hidx
      (by omega) epoch

/-- Witness for C10: a two-body orrery (a root and a fixed child) built by
`init`, with the solve evaluated at the child. -/
theorem C10_witness :
    init ⟨"sys", [⟨"A", BodyClass.planet, none, ⟨0, 0, 0, 0, 0, 0, 0, 0⟩, ⟨0, 0, 0, 0⟩, 1, 1⟩,
        ⟨"B", BodyClass.planet, some "A", ⟨0, 0, 0, 0, 0, 0, 0, 0⟩, ⟨0, 0, 0, 0⟩, 1, 1⟩]⟩ =
      Except.ok ⟨"sys", [⟨"A", BodyClass.planet, none, ⟨0, 0, 0, 0, 0, 0, 0, 0⟩, ⟨0, 0, 0, 0⟩, 1, 1⟩,
        ⟨"B", BodyClass.planet, some "A", ⟨0, 0, 0, 0, 0, 0, 0, 0⟩, ⟨0, 0, 0, 0⟩, 1, 1⟩]⟩ ∧
    (solve_position ⟨"sys", [⟨"A", BodyClass.planet, none, ⟨0, 0, 0, 0, 0, 0, 0, 0⟩, ⟨0, 0, 0, 0⟩, 1, 1⟩,
        ⟨"B", BodyClass.planet, some "A", ⟨0, 0, 0, 0, 0, 0, 0, 0⟩, ⟨0, 0, 0, 0⟩, 1, 1⟩]⟩
      "B" 0).isSome = true := by
  have h : init ⟨"sys", [⟨"A", BodyClass.planet, none, ⟨0, 0, 0, 0, 0, 0, 0, 0⟩, ⟨0, 0, 0, 0⟩, 1, 1⟩,
      ⟨"B", BodyClass.planet, some "A", ⟨0, 0, 0, 0, 0, 0, 0, 0⟩, ⟨0, 0, 0, 0⟩, 1, 1⟩]⟩ =
      Except.ok ⟨"sys", [⟨"A", BodyClass.planet, none, ⟨0, 0, 0, 0, 0, 0, 0, 0⟩, ⟨0, 0, 0, 0⟩, 1, 1⟩,
        ⟨"B", BodyClass.planet, some "A", ⟨0, 0, 0, 0, 0, 0, 0, 0⟩, ⟨0, 0, 0, 0⟩, 1, 1⟩]⟩ := by
    simp [init, initAux, fillPeriod, findBody, Except.map]
  exact ⟨h, (C10_parent_chains _ _ h).2 "B" 0⟩

/-! ## Claim C9: bodies with zero semi-major axis -/

/-- Claim C9, confirmed.  For a body with zero semi-major axis,
`solve_position` returns exactly what the solve of its parent returns (the
parent's position; for a parent-less body, the zero vector), and
`solve_velocity` returns the zero vector, at every epoch. -/
theorem C9_fixed_body (o : Orrery) (name : String) (b : Body) (epoch : ℝ) (fuel : ℕ)
    (hb : findBody o.bodies name = some b) (hsm : b.orbit.semi_major = 0) :
    (∀ p : String, b.parent = some p →
      solvePositionAux (fuel + 1) o.bodies name epoch = solvePositionAux fuel o.bodies p epoch) ∧
    (b.parent = none → solvePositionAux (fuel + 1) o.bodies name epoch = some (some 0)) ∧
    solve_velocity o name epoch = some 0 := by
  refine ⟨?_, ?_, ?_⟩
  · intro p hp
    rw [solvePositionAux]
    simp only [hb, hp]
    cases hres : solvePositionAux fuel o.bodies p epoch with
    | none => rfl
    | some x =>
      cases x with
      | none => rfl
      | some pp => simp [hsm]
  · intro hp
    rw [solvePositionAux]
    simp only [hb, hp]
    simp [hsm]
  · unfold solve_velocity
    simp only [hb]
    rw [if_pos hsm]

/-- Witness for C9: the fixed child body of the two-body orrery. -/
theorem C9_witness :
    solvePositionAux 2 [⟨"A", BodyClass.planet, none, ⟨0, 0, 0, 0, 0, 0, 0, 0⟩, ⟨0, 0, 0, 0⟩, 1, 1⟩,
        ⟨"B", BodyClass.planet, some "A", ⟨0, 0, 0, 0, 0, 0, 0, 0⟩, ⟨0, 0, 0, 0⟩, 1, 1⟩] "B" 0 =
      solvePositionAux 1 [⟨"A", BodyClass.planet, none, ⟨0, 0, 0, 0, 0, 0, 0, 0⟩, ⟨0, 0, 0, 0⟩, 1, 1⟩,
        ⟨"B", BodyClass.planet, some "A", ⟨0, 0, 0, 0, 0, 0, 0, 0⟩, ⟨0, 0, 0, 0⟩, 1, 1⟩] "A" 0 ∧
    solve_velocity ⟨"sys", [⟨"A", BodyClass.planet, none, ⟨0, 0, 0, 0, 0, 0, 0, 0⟩, ⟨0, 0, 0, 0⟩, 1, 1⟩,
        ⟨"B", BodyClass.planet, some "A", ⟨0, 0, 0, 0, 0, 0, 0, 0⟩, ⟨0, 0, 0, 0⟩, 1, 1⟩]⟩ "B" 0 =
      some 0 := by
  have h := C9_fixed_body ⟨"sys",
    [⟨"A", BodyClass.planet, none, ⟨0, 0, 0, 0, 0, 0, 0, 0⟩, ⟨0, 0, 0, 0⟩, 1, 1⟩,
     ⟨"B", BodyClass.planet, some "A", ⟨0, 0, 0, 0, 0, 0, 0, 0⟩, ⟨0, 0, 0, 0⟩, 1, 1⟩]⟩
    "B" ⟨"B", BodyClass.planet, some "A", ⟨0, 0, 0, 0, 0, 0, 0, 0⟩, ⟨0, 0, 0, 0⟩, 1, 1⟩ 0 1
    (by simp [findBody]) rfl
  exact ⟨h.1 "A" rfl, h.2.2⟩

/-! ## Claim C8: Kepler's third law period fill -/

/-- Claim C8, amended.  During construction, a body with zero configured
period and nonzero semi-major axis gets its period from Kepler's third law
using the *sum of the parent's and the body's own masses*:
`T = 2π sqrt(a³/(G(M_parent + M_body)))` with `G = 6.674e-11` — not from the
parent's mass alone as claimed (see the counterexample). -/
theorem C8_period_amended (cfg : OrreryCfg) (o : Orrery) (h : init cfg = Except.ok o)
    (i : ℕ) (b : Body) (hb : cfg.bodies[i]? = some b) (hper : b.orbit.period = 0)
    (hsm : b.orbit.semi_major ≠ 0) (p : String) (hp : b.parent = some p) :
    ∃ P b' : Body, get_body o p = some P ∧ get_body o b.name = some b' ∧
      b'.orbit.period =
        2 * Real.pi * Real.sqrt (b.orbit.semi_major ^ 3 / (G * (P.mass + b.mass))) :=
  initAux_period cfg.bodies [] o.bodies (init_ok_iff cfg o h) i b hb hper hsm p hp

/-- Witness for C8: a parent of mass 2 and a satellite of mass 1 with unit
semi-major axis and unset period. -/
theorem C8_witness :
    init ⟨"sys", [⟨"A", BodyClass.planet, none, ⟨0, 0, 0, 0, 0, 0, 0, 0⟩, ⟨0, 0, 0, 0⟩, 2, 1⟩,
        ⟨"B", BodyClass.planet, some "A", ⟨1, 0, 0, 0, 0, 0, 0, 0⟩, ⟨0, 0, 0, 0⟩, 1, 1⟩]⟩ =
      Except.ok ⟨"sys", [⟨"A", BodyClass.planet, none, ⟨0, 0, 0, 0, 0, 0, 0, 0⟩, ⟨0, 0, 0, 0⟩, 2, 1⟩,
        ⟨"B", BodyClass.planet, some "A",
          ⟨1, 2 * Real.pi * Real.sqrt (1 ^ 3 / (G * (2 + 1))), 0, 0, 0, 0, 0, 0⟩,
          ⟨0, 0, 0, 0⟩, 1, 1⟩]⟩ ∧
    ∃ P b' : Body,
      get_body ⟨"sys", [⟨"A", BodyClass.planet, none, ⟨0, 0, 0, 0, 0, 0, 0, 0⟩, ⟨0, 0, 0, 0⟩, 2, 1⟩,
        ⟨"B", BodyClass.planet, some "A",
          ⟨1, 2 * Real.pi * Real.sqrt (1 ^ 3 / (G * (2 + 1))), 0, 0, 0, 0, 0, 0⟩,
          ⟨0, 0, 0, 0⟩, 1, 1⟩]⟩ "A" = some P ∧
      get_body ⟨"sys", [⟨"A", BodyClass.planet, none, ⟨0, 0, 0, 0, 0, 0, 0, 0⟩, ⟨0, 0, 0, 0⟩, 2, 1⟩,
        ⟨"B", BodyClass.planet, some "A",
          ⟨1, 2 * Real.pi * Real.sqrt (1 ^ 3 / (G * (2 + 1))), 0, 0, 0, 0, 0, 0⟩,
          ⟨0, 0, 0, 0⟩, 1, 1⟩]⟩ "B" = some b' ∧
      b'.orbit.period = 2 * Real.pi * Real.sqrt ((1 : ℝ) ^ 3 / (G * (P.mass + 1))) := by
  have h : init ⟨"sys", [⟨"A", BodyClass.planet, none, ⟨0, 0, 0, 0, 0, 0, 0, 0⟩, ⟨0, 0, 0, 0⟩, 2, 1⟩,
      ⟨"B", BodyClass.planet, some "A", ⟨1, 0, 0, 0, 0, 0, 0, 0⟩, ⟨0, 0, 0, 0⟩, 1, 1⟩]⟩ =
      Except.ok ⟨"sys", [⟨"A", BodyClass.planet, none, ⟨0, 0, 0, 0, 0, 0, 0, 0⟩, ⟨0, 0, 0, 0⟩, 2, 1⟩,
        ⟨"B", BodyClass.planet, some "A",
          ⟨1, 2 * Real.pi * Real.sqrt (1 ^ 3 / (G * (2 + 1))), 0, 0, 0, 0, 0, 0⟩,
          ⟨0, 0, 0, 0⟩, 1, 1⟩]⟩ := by
    simp [init, initAux, fillPeriod, findBody, Except.map]
  exact ⟨h, C8_period_amended _ _ h 1
    ⟨"B", BodyClass.planet, some "A", ⟨1, 0, 0, 0, 0, 0, 0, 0⟩, ⟨0, 0, 0, 0⟩, 1, 1⟩
    (by simp) rfl (by norm_num) "A" rfl⟩

/-- Counterexample to C8 as stated: with a parent of mass 2 and a body of mass
1, the stored period is `2π sqrt(a³/(G·3))`, not the claimed
`2π sqrt(a³/(G·2))` from the parent mass alone. -/
theorem C8_counterexample :
    ∃ o : Orrery,
      init ⟨"sys", [⟨"A", BodyClass.planet, none, ⟨0, 0, 0, 0, 0, 0, 0, 0⟩, ⟨0, 0, 0, 0⟩, 2, 1⟩,
        ⟨"B", BodyClass.planet, some "A", ⟨1, 0, 0, 0, 0, 0, 0, 0⟩, ⟨0, 0, 0, 0⟩, 1, 1⟩]⟩ =
        Except.ok o ∧
      ∃ b' : Body, get_body o "B" = some b' ∧
        b'.orbit.period ≠ 2 * Real.pi * Real.sqrt ((1 : ℝ) ^ 3 / (G * 2)) := by
  refine ⟨⟨"sys", [⟨"A", BodyClass.planet, none, ⟨0, 0, 0, 0, 0, 0, 0, 0⟩, ⟨0, 0, 0, 0⟩, 2, 1⟩,
      ⟨"B", BodyClass.planet, some "A",
        ⟨1, 2 * Real.pi * Real.sqrt (1 ^ 3 / (G * (2 + 1))), 0, 0, 0, 0, 0, 0⟩,
        ⟨0, 0, 0, 0⟩, 1, 1⟩]⟩, ?_,
    ⟨"B", BodyClass.planet, some "A",
        ⟨1, 2 * Real.pi * Real.sqrt (1 ^ 3 / (G * (2 + 1))), 0, 0, 0, 0, 0, 0⟩,
        ⟨0, 0, 0, 0⟩, 1, 1⟩, ?_, ?_⟩
  · simp [init, initAux, fillPeriod, findBody, Except.map]
  · simp [get_body, findBody]
  · have hlt : (1 : ℝ) ^ 3 / (G * (2 + 1)) < 1 ^ 3 / (G * 2) := by
      unfold G
      norm_num
    have hsq := Real.sqrt_lt_sqrt (by unfold G; positivity) hlt
    intro heq
    have h2pi : (2 : ℝ) * Real.pi ≠ 0 := by positivity
    have hcast : Real.sqrt (1 ^ 3 / (G * (2 + 1))) = Real.sqrt ((1 : ℝ) ^ 3 / (G * 2)) :=
      mul_left_cancel₀ h2pi (by simpa [mul_assoc] using heq)
    exact absurd hcast (ne_of_lt hsq)

/-! ## Claim C3: the gravity pass constant -/

/-- Claim C3 names the standard gravitational constant, but the `gravity`
system hard-codes `GEE = 6.6473e-11` — a digit transposition of the standard
`6.6743e-11` (and distinct from `6.674e-11` used by the same repository's
orbit solver).  Concrete failing input: a single celestial of mass
`2.5e12 kg` displaced `(3, 4, 0)` meters from a unit-mass object.  The code
adds force `(3.98838, 5.31784, 0)` N (magnitude `6.6473`), updating the
sphere of influence to that celestial, while the claimed formula with the
standard constant gives x-component `3/5·(6.6743e-11·2.5e12/25) = 4.00458`. -/
theorem C3_gravity_constant_bug :
    gravityObject [⟨"S", BodyClass.planet, none, ⟨0, 0, 0, 0, 0, 0, 0, 0⟩, ⟨0, 0, 0, 0⟩, 2.5e12, 1⟩]
      [⟨1, "S", ⟨3000, 4000, 0⟩⟩] 1 ⟨0, 0, 0⟩ ⟨0, 0, 0⟩ none =
      some (⟨3.98838, 5.31784, 0⟩, some 1) ∧
    (3.98838 : ℝ) ≠ 3 / 5 * (standardG * 2.5e12 * 1 / 25) := by
  constructor
  · have hfind : findBody [⟨"S", BodyClass.planet, none, ⟨0, 0, 0, 0, 0, 0, 0, 0⟩,
        ⟨0, 0, 0, 0⟩, 2.5e12, 1⟩] "S" = some ⟨"S", BodyClass.planet, none,
        ⟨0, 0, 0, 0, 0, 0, 0, 0⟩, ⟨0, 0, 0, 0⟩, 2.5e12, 1⟩ := rfl
    have hv : castV3 (to_meters_64 ((⟨3000, 4000, 0⟩ : V3 ℤ) - ⟨0, 0, 0⟩)) =
        (⟨3, 4, 0⟩ : V3 ℝ) := by
      simp only [castV3, to_meters_64, V3.sub_def, V3.mk.injEq]
      norm_num
    have hns : V3.normSq (⟨3, 4, 0⟩ : V3 ℝ) = 25 := by norm_num [V3.normSq, V3.dot]
    have hf : GEE * (2.5e12 : ℝ) * 1 / 25 = 6.6473 := by unfold GEE; norm_num
    have hsq : Real.sqrt (25 : ℝ) = 5 := by
      rw [show (25 : ℝ) = 5 ^ 2 by norm_num]
      exact Real.sqrt_sq (by norm_num)
    have hpos : (6.6473 : ℝ) > 0 := by norm_num
    have hloop : gravityLoop [⟨"S", BodyClass.planet, none, ⟨0, 0, 0, 0, 0, 0, 0, 0⟩,
        ⟨0, 0, 0, 0⟩, 2.5e12, 1⟩] 1 ⟨0, 0, 0⟩ [⟨1, "S", ⟨3000, 4000, 0⟩⟩]
        (⟨0, 0, 0⟩, 0, none) = some (⟨3.98838, 5.31784, 0⟩, 6.6473, some 1) := by
      rw [gravityLoop]
      simp only [hfind, hv, hns, hf, hsq]
      rw [if_pos hpos, gravityLoop]
      norm_num [V3.smul_def, V3.add_def, V3.mk.injEq, Prod.mk.injEq]
    unfold gravityObject
    simp only [hloop]
    simp
  · unfold standardG
    norm_num

end ToySim
